import Mathlib

/-!
# cloudmqtt: event dispatch and device discovery

A shallow embedding of `internal/cloudmqtt/transport.go` and
`internal/cloudmqtt/impl/notify.go`.

* The external collaborators (`contract.Sender`, `contract.Notifier`,
  `contract.Marshaller`, `contract.CleanUp`, `MetadataClient.DeviceForName`,
  `EdgeXContext.MarkAsPushed`) are arbitrary functions that thread an abstract
  world `W`; nothing is assumed about them.
* Every call to a collaborator, every log line, every `time.Sleep` and every
  channel operation is appended to a trace of `Action`s, together with the
  value the call returned.  The trace is the only instrumentation; it is what
  "invoked exactly k times" is measured on.
* The unbounded `for` loop of `handleEvent` is run with fuel: one unit per
  iteration.
* The logging client and `time.Sleep` only write to the trace.  Nothing is lost
  by this: the sleep and the log lines follow a call of a collaborator at a
  fixed place, so whatever they do to the world is part of that collaborator's
  transition.
* The goroutine, the buffered channel of capacity 16, `close` and the
  `sync.WaitGroup` are modelled by a small-step machine driven by a schedule:
  one calling goroutine and the tracker goroutine, a step per call of a
  collaborator or channel operation.  A send on a closed channel and a close of
  a closed channel panic, as in Go, and a panic stops the program.
* The functions (`handleEvent`, `run`, `newDeviceHandler`) read each method on
  its own; the machine interleaves them.  `machine_handleEvent` and
  `machine_rangeLoop` show that the two agree.
-/

namespace cloudmqtt

/-! ## Data model -/

/-- A byte slice, `[]byte`. -/
abbrev Bytes := List Nat

/-- The fields of `models.Event` that the code reads (`ID`, `Device`) and the
readings it carries. -/
structure Event where
  ID : String
  Device : String
  Readings : List String
  deriving DecidableEq, Repr

/-- The device record `models.Device` returned by core-metadata. -/
structure Device where
  Name : String
  Description : String
  deriving DecidableEq, Repr

/-- A Go `interface{}` value, as far as its dynamic type matters to the code:
`run` asserts `param.(models.Event)`, `handleEvent` marshals a `*models.Event`
and `Notify` marshals a `models.Device`. -/
inductive Value where
  | event (e : Event)
  | eventPtr (e : Event)
  | device (d : Device)
  | other (s : String)
  deriving DecidableEq, Repr

/-- Log levels of `logger.LoggingClient` used by the code. -/
inductive Level where
  | debug
  | warn
  | error
  deriving DecidableEq, Repr

/-- One observable action, with the value it returned. -/
inductive Action where
  /-- The call `t.marshal(event)` in `handleEvent`; `ok` is `err == nil`. -/
  | marshal (v : Value) (ok : Bool)
  /-- The call `t.send(bytes)` in `handleEvent`. -/
  | send (data : Bytes) (ok : Bool)
  /-- The call `time.Sleep(d)`. -/
  | sleep (d : Nat)
  /-- The call `EdgeXContext.MarkAsPushed()`; `ok` is `err == nil`. -/
  | markAsPushed (ok : Bool)
  /-- The call `t.notify(event)` in `newDeviceHandler`. -/
  | notify (e : Event) (ok : Bool)
  /-- The call `n.metadataClient.DeviceForName(name, ctx)` in `Notify`. -/
  | deviceForName (name : String) (ok : Bool)
  /-- The call `n.marshal(result)` in `Notify`. -/
  | notifyMarshal (v : Value) (ok : Bool)
  /-- The call `n.send(bytes)` in `Notify(e)`. -/
  | notifySend (e : Event) (data : Bytes) (ok : Bool)
  /-- The call `t.cleanUp()`. -/
  | cleanUp
  /-- The send `t.events <- &event`. -/
  | chanSend (e : Event)
  /-- One value taken by `for event := range t.events`. -/
  | chanRecv (e : Event)
  /-- The call `close(t.events)`. -/
  | chanClose
  /-- A line written through the logging client. -/
  | log (level : Level) (msg : String)
  deriving DecidableEq, Repr

/-- A world together with the trace of what has happened so far. -/
structure St (W : Type) where
  world : W
  trace : List Action

/-- Appends actions to the trace. -/
def St.emit {W : Type} (s : St W) (as : List Action) : St W :=
  { s with trace := s.trace ++ as }

/-! ## contract/contract.go -/

/-- The type `contract.Sender`: `func(data []byte) bool`. -/
abbrev Sender (W : Type) := Bytes → W → Bool × W

/-- The type `contract.Notifier`: `func(event *models.Event) bool`. -/
abbrev Notifier (W : Type) := Event → W → Bool × W

/-- The type `contract.Marshaller`: `func(v interface{}) ([]byte, error)`. -/
abbrev Marshaller (W : Type) := Value → W → Except String Bytes × W

/-- The type `contract.CleanUp`: `func()`. -/
abbrev CleanUp (W : Type) := W → W

/-- The interface `contract.MetadataClient`. -/
structure MetadataClient (W : Type) where
  DeviceForName : String → W → Except String Device × W

/-- The interface `contract.EdgeXContext`; `none` is a nil error. -/
structure EdgeXContext (W : Type) where
  MarkAsPushed : W → Option String × W

/-! ## impl/notify.go -/

/-- The receiver `notify` (the logging client is the trace). -/
structure notify (W : Type) where
  send : Sender W
  marshal : Marshaller W
  metadataClient : MetadataClient W

/-- The function `deviceCallFailedLogMessage`. -/
def deviceCallFailedLogMessage (eventId errorMessage : String) : String :=
  "device call failed for " ++ eventId ++ " (" ++ errorMessage ++ ")"

/-- The function `marshalFailedLogMessage`. -/
def marshalFailedLogMessage (eventId errorMessage : String) : String :=
  "marshal failed for " ++ eventId ++ " (" ++ errorMessage ++ ")"

/-- The method `(*notify).Notify`. -/
def Notify {W : Type} (n : notify W) (event : Event) (s : St W) : Bool × St W :=
  match n.metadataClient.DeviceForName event.Device s.world with
  | (.error err, w1) =>
      (false, { world := w1, trace := s.trace ++
        [.deviceForName event.Device false,
         .log .error (deviceCallFailedLogMessage event.ID err)] })
  | (.ok result, w1) =>
      match n.marshal (.device result) w1 with
      | (.error err, w2) =>
          (false, { world := w2, trace := s.trace ++
            [.deviceForName event.Device true,
             .notifyMarshal (.device result) false,
             .log .error (marshalFailedLogMessage event.ID err)] })
      | (.ok bytes, w2) =>
          match n.send bytes w2 with
          | (r, w3) =>
              (r, { world := w3, trace := s.trace ++
                [.deviceForName event.Device true,
                 .notifyMarshal (.device result) true,
                 .notifySend event bytes r] })

/-! ## transport.go -/

/-- The receiver `transport`.  The logging client is the trace; the wait group
and the channel live in the state of the machine below. -/
structure transport (W : Type) where
  sendFailureWaitInNanoseconds : Nat
  send : Sender W
  notify : Notifier W
  marshal : Marshaller W
  cleanUp : CleanUp W

/-- The function `detectedNewDeviceLogMessage`. -/
def detectedNewDeviceLogMessage (deviceName : String) : String :=
  "detected new device " ++ deviceName

/-- The function `sentLogMessage`. -/
def sentLogMessage (eventId : String) : String :=
  "sent for " ++ eventId

/-- The `for { ... }` loop of `handleEvent`, one unit of fuel per iteration;
`none` when the fuel runs out before a send succeeds. -/
def retryLoop {W : Type} (t : transport W) (ctx : EdgeXContext W) (event : Event)
    (bytes : Bytes) : Nat → St W → Option (St W)
  | 0, _ => none
  | fuel + 1, s =>
      match t.send bytes s.world with
      | (true, w1) =>
          match ctx.MarkAsPushed w1 with
          | (some err, w2) =>
              some { world := w2, trace := s.trace ++
                [.send bytes true, .log .debug (sentLogMessage event.ID),
                 .markAsPushed false, .log .error err] }
          | (none, w2) =>
              some { world := w2, trace := s.trace ++
                [.send bytes true, .log .debug (sentLogMessage event.ID),
                 .markAsPushed true] }
      | (false, w1) =>
          retryLoop t ctx event bytes fuel
            { world := w1, trace := s.trace ++
                [.send bytes false, .sleep t.sendFailureWaitInNanoseconds] }

/-- The method `(*transport).handleEvent`. -/
def handleEvent {W : Type} (t : transport W) (ctx : EdgeXContext W) (event : Event)
    (fuel : Nat) (s : St W) : Option (St W) :=
  match t.marshal (.eventPtr event) s.world with
  | (.error err, w1) =>
      some { world := w1, trace := s.trace ++
        [.marshal (.eventPtr event) false,
         .log .warn (marshalFailedLogMessage event.ID err)] }
  | (.ok bytes, w1) =>
      retryLoop t ctx event bytes fuel
        { world := w1, trace := s.trace ++ [.marshal (.eventPtr event) true] }

/-- The map `devices` of `newDeviceHandler`, a `map[string]bool`. -/
abbrev DeviceMap := String → Option Bool

/-- The result of `make(map[string]bool)`. -/
def DeviceMap.empty : DeviceMap := fun _ => none

/-- The assignment `devices[k] = v`. -/
def DeviceMap.set (m : DeviceMap) (k : String) (v : Bool) : DeviceMap :=
  fun x => if x = k then some v else m x

/-- The body of the `for event := range t.events` loop of `newDeviceHandler`,
for one received event. -/
def loopBody {W : Type} (t : transport W) (event : Event) (devices : DeviceMap)
    (s : St W) : DeviceMap × St W :=
  match devices event.Device with
  | some _ => (devices, s)
  | none =>
      match t.notify event s.world with
      | (true, w1) =>
          (devices.set event.Device true,
           { world := w1, trace := s.trace ++
              [.notify event true,
               .log .debug (detectedNewDeviceLogMessage event.Device)] })
      | (false, w1) =>
          (devices, { world := w1, trace := s.trace ++ [.notify event false] })

/-- The `range` loop of `newDeviceHandler` over the events the channel
delivers before it is closed and drained. -/
def rangeLoop {W : Type} (t : transport W) :
    List Event → DeviceMap × St W → DeviceMap × St W
  | [], ds => ds
  | e :: es, ds => rangeLoop t es (loopBody t e ds.1 (ds.2.emit [.chanRecv e]))

/-- The method `(*transport).newDeviceHandler`, run on the events the channel
delivers: it starts from the empty map. -/
def newDeviceHandler {W : Type} (t : transport W) (events : List Event) (s : St W) :
    DeviceMap × St W :=
  rangeLoop t events (DeviceMap.empty, s)

/-- The `for _, param := range params` loop of `run`.  The channel send is
recorded in the trace; every call of `handleEvent` gets `fuel` iterations. -/
def runLoop {W : Type} (t : transport W) (ctx : EdgeXContext W) :
    List Value → Nat → St W → Option (St W)
  | [], _, s => some s
  | .event e :: ps, fuel, s =>
      match handleEvent t ctx e fuel (s.emit [.chanSend e]) with
      | none => none
      | some s1 => runLoop t ctx ps fuel s1
  | _ :: ps, fuel, s => runLoop t ctx ps fuel s

/-- The method `(*transport).run`; it returns `true, params`. -/
def run {W : Type} (t : transport W) (ctx : EdgeXContext W) (params : List Value)
    (fuel : Nat) (s : St W) : Option ((Bool × List Value) × St W) :=
  match runLoop t ctx params fuel s with
  | none => none
  | some s1 => some ((true, params), s1)

/-! ## The goroutine, the channel and the wait group -/

/-- Where the goroutine `newDeviceHandler` stands. -/
inductive trackerPc where
  /-- At `range t.events`, waiting for the next event. -/
  | ranging
  /-- Holding a received event, before the loop body. -/
  | holding (e : Event)
  /-- Returned; the deferred `t.wg.Done()` has run. -/
  | exited
  deriving DecidableEq, Repr

/-- Where the calling goroutine stands. -/
inductive mainPc (W : Type) where
  /-- Outside any method of the transport. -/
  | idle
  /-- In `run`, at the head of the loop over the remaining parameters. -/
  | runRange (ctx : EdgeXContext W) (ps : List Value)
  /-- In `handleEvent`, before `t.marshal(event)`. -/
  | handleMarshal (ctx : EdgeXContext W) (e : Event) (ps : List Value)
  /-- In `handleEvent`, before `t.send(bytes)`. -/
  | handleSend (ctx : EdgeXContext W) (e : Event) (bytes : Bytes) (ps : List Value)
  /-- In `handleEvent`, before `time.Sleep`. -/
  | handleSleep (ctx : EdgeXContext W) (e : Event) (bytes : Bytes) (ps : List Value)
  /-- In `handleEvent`, before `MarkAsPushed()`. -/
  | handleMark (ctx : EdgeXContext W) (e : Event) (ps : List Value)
  /-- In `CleanUp`, before `close(t.events)`. -/
  | cleanClose
  /-- In `CleanUp`, at `t.wg.Wait()`. -/
  | cleanWait
  /-- In `CleanUp`, before `t.cleanUp()`. -/
  | cleanCall
  /-- The program has panicked. -/
  | panicked (msg : String)

/-- The capacity of `t.events`: `make(chan *models.Event, 16)`. -/
def eventsCapacity : Nat := 16

/-- The state of a running transport and of the two goroutines that use it. -/
structure Machine (W : Type) where
  st : St W
  /-- The contents of the channel `t.events`, oldest first. -/
  events : List Event
  /-- Whether `t.events` has been closed. -/
  closed : Bool
  /-- The counter of `t.wg`. -/
  wg : Nat
  devices : DeviceMap
  tracker : trackerPc
  main : mainPc W

/-- The constructor `NewTransport`: an empty open channel, `t.wg.Add(1)` and the
goroutine started. -/
def NewTransport {W : Type} (w : W) : Machine W :=
  { st := { world := w, trace := [] }, events := [], closed := false, wg := 1,
    devices := DeviceMap.empty, tracker := .ranging, main := .idle }

/-- One step of the goroutine `newDeviceHandler`; `none` when it is blocked or
has returned. -/
def trackerStep {W : Type} (t : transport W) (m : Machine W) : Option (Machine W) :=
  match m.tracker with
  | .ranging =>
      match m.events with
      | e :: rest =>
          some { m with events := rest, tracker := .holding e,
                        st := m.st.emit [.chanRecv e] }
      | [] =>
          if m.closed then some { m with tracker := .exited, wg := m.wg - 1 }
          else none
  | .holding e =>
      match loopBody t e m.devices m.st with
      | (d, s) => some { m with devices := d, st := s, tracker := .ranging }
  | .exited => none

/-- One step of the calling goroutine; `none` when it is blocked or outside any
method. -/
def mainStep {W : Type} (t : transport W) (m : Machine W) : Option (Machine W) :=
  match m.main with
  | .idle => none
  | .runRange _ [] => some { m with main := .idle }
  | .runRange ctx (.event e :: ps) =>
      if m.closed then some { m with main := .panicked "send on closed channel" }
      else if m.events.length < eventsCapacity then
        some { m with events := m.events ++ [e], st := m.st.emit [.chanSend e],
                      main := .handleMarshal ctx e ps }
      else none
  | .runRange ctx (_ :: ps) => some { m with main := .runRange ctx ps }
  | .handleMarshal ctx e ps =>
      match t.marshal (.eventPtr e) m.st.world with
      | (.error err, w1) =>
          some { m with
            st := { world := w1, trace := m.st.trace ++
              [.marshal (.eventPtr e) false,
               .log .warn (marshalFailedLogMessage e.ID err)] },
            main := .runRange ctx ps }
      | (.ok bytes, w1) =>
          some { m with
            st := { world := w1, trace := m.st.trace ++ [.marshal (.eventPtr e) true] },
            main := .handleSend ctx e bytes ps }
  | .handleSend ctx e bytes ps =>
      match t.send bytes m.st.world with
      | (true, w1) =>
          some { m with
            st := { world := w1, trace := m.st.trace ++
              [.send bytes true, .log .debug (sentLogMessage e.ID)] },
            main := .handleMark ctx e ps }
      | (false, w1) =>
          some { m with
            st := { world := w1, trace := m.st.trace ++ [.send bytes false] },
            main := .handleSleep ctx e bytes ps }
  | .handleSleep ctx e bytes ps =>
      some { m with st := m.st.emit [.sleep t.sendFailureWaitInNanoseconds],
                    main := .handleSend ctx e bytes ps }
  | .handleMark ctx _ ps =>
      match ctx.MarkAsPushed m.st.world with
      | (some err, w1) =>
          some { m with
            st := { world := w1, trace := m.st.trace ++
              [.markAsPushed false, .log .error err] },
            main := .runRange ctx ps }
      | (none, w1) =>
          some { m with
            st := { world := w1, trace := m.st.trace ++ [.markAsPushed true] },
            main := .runRange ctx ps }
  | .cleanClose =>
      if m.closed then some { m with main := .panicked "close of closed channel" }
      else some { m with closed := true, st := m.st.emit [.chanClose],
                         main := .cleanWait }
  | .cleanWait => if m.wg = 0 then some { m with main := .cleanCall } else none
  | .cleanCall =>
      some { m with
        st := { world := t.cleanUp m.st.world, trace := m.st.trace ++ [.cleanUp] },
        main := .idle }
  | .panicked _ => none

/-- A call of a method of the transport by its owner. -/
inductive Call (W : Type) where
  | run (ctx : EdgeXContext W) (params : List Value)
  | CleanUp

/-- What the scheduler lets happen next. -/
inductive Choice (W : Type) where
  /-- The goroutine `newDeviceHandler` takes a step. -/
  | tracker
  /-- The calling goroutine takes a step of the method it is in. -/
  | main
  /-- The calling goroutine, outside any method, enters one. -/
  | call (c : Call W)

/-- Whether the program has panicked. -/
def Machine.hasPanicked {W : Type} (m : Machine W) : Bool :=
  match m.main with
  | .panicked _ => true
  | _ => false

/-- One scheduled step; `none` when the choice is not enabled.  A panic stops
every goroutine. -/
def step {W : Type} (t : transport W) (m : Machine W) : Choice W → Option (Machine W)
  | .tracker => if m.hasPanicked then none else trackerStep t m
  | .main => mainStep t m
  | .call c =>
      match m.main with
      | .idle =>
          match c with
          | .run ctx params => some { m with main := .runRange ctx params }
          | .CleanUp => some { m with main := .cleanClose }
      | _ => none

/-- Runs a schedule; a choice that is not enabled leaves the state as it is. -/
def exec {W : Type} (t : transport W) (m : Machine W) : List (Choice W) → Machine W
  | [] => m
  | c :: cs => exec t ((step t m c).getD m) cs

/-! ## Measures on traces -/

/-- The world after `n` successive calls `send(bytes)`. -/
def worldAfterSends {W : Type} (send : Sender W) (bytes : Bytes) : Nat → W → W
  | 0, w => w
  | n + 1, w => worldAfterSends send bytes n (send bytes w).2

/-- The results of `n` successive calls `send(bytes)`. -/
def sendResults {W : Type} (send : Sender W) (bytes : Bytes) : Nat → W → List Bool
  | 0, _ => []
  | n + 1, w => (send bytes w).1 :: sendResults send bytes n (send bytes w).2

/-- The calls of `t.send` in a trace: the bytes sent and the result. -/
def sends : List Action → List (Bytes × Bool)
  | [] => []
  | .send data ok :: as => (data, ok) :: sends as
  | _ :: as => sends as

/-- The durations slept in a trace. -/
def sleeps : List Action → List Nat
  | [] => []
  | .sleep d :: as => d :: sleeps as
  | _ :: as => sleeps as

/-- The calls of `MarkAsPushed` in a trace, each with whether it returned nil. -/
def marks : List Action → List Bool
  | [] => []
  | .markAsPushed ok :: as => ok :: marks as
  | _ :: as => marks as

/-- The calls of `n.marshal` in a trace. -/
def notifyMarshals : List Action → List (Value × Bool)
  | [] => []
  | .notifyMarshal v ok :: as => (v, ok) :: notifyMarshals as
  | _ :: as => notifyMarshals as

/-- The calls of `n.send` in a trace: the event notified, the bytes and the
result. -/
def notifySends : List Action → List (Event × Bytes × Bool)
  | [] => []
  | .notifySend e data ok :: as => (e, data, ok) :: notifySends as
  | _ :: as => notifySends as

/-- The calls of `t.notify` in a trace: the event and the result. -/
def notifies : List Action → List (Event × Bool)
  | [] => []
  | .notify e ok :: as => (e, ok) :: notifies as
  | _ :: as => notifies as

/-- The events put on the channel in a trace. -/
def chanSends : List Action → List Event
  | [] => []
  | .chanSend e :: as => e :: chanSends as
  | _ :: as => chanSends as

/-- The events taken from the channel in a trace. -/
def chanRecvs : List Action → List Event
  | [] => []
  | .chanRecv e :: as => e :: chanRecvs as
  | _ :: as => chanRecvs as

/-- The number of calls of `t.cleanUp` in a trace. -/
def cleanUps : List Action → Nat
  | [] => 0
  | .cleanUp :: as => cleanUps as + 1
  | _ :: as => cleanUps as

/-- The trace of `k` failed attempts of the retry loop: a send that returns
false, then the sleep. -/
def failedAttempts (bytes : Bytes) (wait : Nat) : Nat → List Action
  | 0 => []
  | k + 1 => .send bytes false :: .sleep wait :: failedAttempts bytes wait k

/-- The trace of `MarkAsPushed()` returning `r`, with the error logged. -/
def pushedActions : Option String → List Action
  | some err => [.markAsPushed false, .log .error err]
  | none => [.markAsPushed true]

/-! ## The tracker, event by event -/

/-- The map and the state of the tracker once it has processed the first `n`
events of `evs`. -/
def trackerAfter {W : Type} (t : transport W) (evs : List Event) (s : St W) (n : Nat) :
    DeviceMap × St W :=
  newDeviceHandler t (evs.take n) s

/-- The actions the tracker performs on the event at position `i`: what the
trace gains between the first `i` and the first `i + 1` events. -/
def eventActions {W : Type} (t : transport W) (evs : List Event) (s : St W) (i : Nat) :
    List Action :=
  (trackerAfter t evs s (i + 1)).2.trace.drop (trackerAfter t evs s i).2.trace.length

/-- The device name of the event at position `i`. -/
def deviceAt (evs : List Event) (i : Nat) : Option String :=
  (evs[i]?).map Event.Device

/-- The tracker invokes the notifier on the event at position `i`. -/
def invokedAt {W : Type} (t : transport W) (evs : List Event) (s : St W) (i : Nat) : Prop :=
  ∃ e ok, evs[i]? = some e ∧ notifies (eventActions t evs s i) = [(e, ok)]

/-- The notifier call made for the event at position `j` returned true. -/
def succeededAt {W : Type} (t : transport W) (evs : List Event) (s : St W) (j : Nat) : Prop :=
  ∃ e, evs[j]? = some e ∧ notifies (eventActions t evs s j) = [(e, true)]

/-- The notifier call made for the event at position `j` returned false. -/
def failedAt {W : Type} (t : transport W) (evs : List Event) (s : St W) (j : Nat) : Prop :=
  ∃ e, evs[j]? = some e ∧ notifies (eventActions t evs s j) = [(e, false)]

/-- The results of the calls of `n.send` made while notifying device `d`. -/
def notifySendResultsFor (d : String) (tr : List Action) : List Bool :=
  ((notifySends tr).filter (fun x => x.1.Device = d)).map (fun x => x.2.2)

/-! ## The parameters of run -/

/-- The type assertion `param.(models.Event)`. -/
def asEvent : Value → Option Event
  | .event e => some e
  | _ => none

/-- The trace that puts each event on the channel and then performs the
actions listed for it, event after event. -/
def insertThenHandle : List Event → List (List Action) → List Action
  | e :: es, seg :: segs => .chanSend e :: (seg ++ insertThenHandle es segs)
  | _, _ => []

/-! ## Observations on the machine -/

/-- The number of `close(t.events)` in a trace. -/
def chanCloses : List Action → Nat
  | [] => 0
  | .chanClose :: as => chanCloses as + 1
  | _ :: as => chanCloses as

/-- The calling goroutine is outside any method. -/
def mainPc.isIdle {W : Type} : mainPc W → Bool
  | .idle => true
  | _ => false

/-- The calling goroutine is at `t.wg.Wait()`. -/
def mainPc.isCleanWait {W : Type} : mainPc W → Bool
  | .cleanWait => true
  | _ => false

/-- The calling goroutine is about to call `t.cleanUp()`. -/
def mainPc.isCleanCall {W : Type} : mainPc W → Bool
  | .cleanCall => true
  | _ => false

/-- What holds of the machine in every execution that starts with
`NewTransport`. -/
structure Inv {W : Type} (m : Machine W) : Prop where
  /-- The wait group counts the tracker as long as it has not returned. -/
  wg_eq : m.wg = if m.tracker = .exited then 0 else 1
  /-- The tracker returns only from a closed and drained channel. -/
  exited_drained : m.tracker = .exited → m.closed = true ∧ m.events = []
  /-- Every event put on the channel has been received or is still in it. -/
  fifo : chanSends m.st.trace = chanRecvs m.st.trace ++ m.events
  /-- The channel never holds more than its capacity. -/
  bounded : m.events.length ≤ eventsCapacity
  /-- The channel is closed exactly when `close` has been called, once. -/
  closed_iff : chanCloses m.st.trace = if m.closed then 1 else 0
  /-- Past `close` and before the callback, `CleanUp` has not called it. -/
  waiting : (m.main.isCleanWait = true ∨ m.main.isCleanCall = true) →
    m.closed = true ∧ cleanUps m.st.trace = 0
  /-- The callback is reached only with the wait group at zero. -/
  calling : m.main.isCleanCall = true → m.wg = 0
  /-- The callback is not called while the channel is open. -/
  open_no_cleanUp : m.closed = false → cleanUps m.st.trace = 0
  /-- The callback is called at most once. -/
  cleanUp_once : cleanUps m.st.trace ≤ 1
  /-- Once the callback has been called the tracker has returned. -/
  cleanUp_exited : 1 ≤ cleanUps m.st.trace → m.tracker = .exited

/-! ## Concrete collaborators -/

/-- A sender that reads its results off a script, and succeeds once the script
is used up. -/
def scriptedSend : Sender (List Bool) := fun _ w => (w.headD true, w.tail)

/-- A notifier that reads its results off a script. -/
def scriptedNotify : Notifier (List Bool) := fun _ w => (w.headD true, w.tail)

/-- A marshaller that fails on events whose ID is empty. -/
def sampleMarshal {W : Type} : Marshaller W := fun v w =>
  match v with
  | .eventPtr e => if e.ID = "" then (.error "empty", w) else (.ok [1, 2, 3], w)
  | .device d => if d.Name = "" then (.error "empty", w) else (.ok [4, 5], w)
  | _ => (.ok [], w)

/-- A transport whose sender follows the script in the world. -/
def scriptedSender : transport (List Bool) :=
  { sendFailureWaitInNanoseconds := 1000000000, send := scriptedSend,
    notify := fun _ w => (true, w), marshal := sampleMarshal, cleanUp := id }

/-- A transport whose notifier follows the script in the world. -/
def scriptedNotifier : transport (List Bool) :=
  { sendFailureWaitInNanoseconds := 1000000000, send := fun _ w => (true, w),
    notify := scriptedNotify, marshal := sampleMarshal, cleanUp := id }

/-- A context whose `MarkAsPushed` returns an error. -/
def failingContext {W : Type} : EdgeXContext W :=
  { MarkAsPushed := fun w => (some "not pushed", w) }

/-- A context whose `MarkAsPushed` returns nil. -/
def nilContext {W : Type} : EdgeXContext W :=
  { MarkAsPushed := fun w => (none, w) }

/-- A metadata client that knows every device but `"ghost"`. -/
def sampleMetadata {W : Type} : MetadataClient W :=
  { DeviceForName := fun name w =>
      if name = "ghost" then (.error "not found", w) else (.ok ⟨name, "a device"⟩, w) }

/-- A notifier receiver whose sender follows the script in the world. -/
def scriptedNotifyImpl : notify (List Bool) :=
  { send := scriptedSend, marshal := sampleMarshal, metadataClient := sampleMetadata }

/-- Sample events. -/
def E1 : Event := ⟨"e1", "A", ["r1"]⟩

/-- A second event of device `A`. -/
def E2 : Event := ⟨"e2", "A", ["r2"]⟩

/-- An event of device `B`. -/
def E3 : Event := ⟨"e3", "B", ["r3"]⟩

/-- An event whose marshalling fails. -/
def E0 : Event := ⟨"", "A", []⟩

/-- A transport over the notifier's own state, whose notifier is `Notify` with
the scripted sender, as `FactoryTransport` wires `notifier.Notify`. -/
def notifyingTracker : transport (St (List Bool)) :=
  { sendFailureWaitInNanoseconds := 1000000000, send := fun _ w => (true, w),
    notify := Notify scriptedNotifyImpl, marshal := sampleMarshal, cleanUp := id }

/-- A transport whose notifier follows the script in the world and whose
`cleanUp` callback leaves a mark in the world. -/
def unsubscribing : transport (List Bool) :=
  { sendFailureWaitInNanoseconds := 1000000000, send := fun _ w => (true, w),
    notify := scriptedNotify, marshal := sampleMarshal, cleanUp := fun w => false :: w }

/-- A transport on which `run` has handled E1 and E3 and returned, while the
tracker has not yet taken a step: both events are still queued. -/
def afterRun : Machine (List Bool) :=
  exec unsubscribing (NewTransport [true, true, true])
    [.call (.run nilContext [.event E1, .event E3]),
     .main, .main, .main, .main, .main, .main, .main, .main, .main]

/-- A transport on which a first `CleanUp` has returned. -/
def afterCleanUp : Machine (List Bool) :=
  exec scriptedSender (NewTransport []) [.call .CleanUp, .main, .tracker, .main, .main]

/-! ## Lemmas on traces -/

theorem sends_append (a b : List Action) : sends (a ++ b) = sends a ++ sends b := by
  induction a with
  | nil => rfl
  | cons x xs ih => cases x <;> simp [sends, ih]

theorem sleeps_append (a b : List Action) : sleeps (a ++ b) = sleeps a ++ sleeps b := by
  induction a with
  | nil => rfl
  | cons x xs ih => cases x <;> simp [sleeps, ih]

theorem marks_append (a b : List Action) : marks (a ++ b) = marks a ++ marks b := by
  induction a with
  | nil => rfl
  | cons x xs ih => cases x <;> simp [marks, ih]

theorem sends_failedAttempts (bytes : Bytes) (wait k : Nat) :
    sends (failedAttempts bytes wait k) = List.replicate k (bytes, false) := by
  induction k with
  | zero => rfl
  | succ k ih => simp [failedAttempts, sends, ih, List.replicate_succ]

theorem sleeps_failedAttempts (bytes : Bytes) (wait k : Nat) :
    sleeps (failedAttempts bytes wait k) = List.replicate k wait := by
  induction k with
  | zero => rfl
  | succ k ih => simp [failedAttempts, sleeps, ih, List.replicate_succ]

theorem marks_failedAttempts (bytes : Bytes) (wait k : Nat) :
    marks (failedAttempts bytes wait k) = [] := by
  induction k with
  | zero => rfl
  | succ k ih => simp [failedAttempts, marks, ih]

theorem marks_pushedActions (r : Option String) :
    marks (pushedActions r) = [r.isNone] := by
  cases r <;> rfl

theorem sends_pushedActions (r : Option String) : sends (pushedActions r) = [] := by
  cases r <;> rfl

theorem sleeps_pushedActions (r : Option String) : sleeps (pushedActions r) = [] := by
  cases r <;> rfl

/-! ## The retry loop -/

/-- While the fuel does not outlast the failures, the loop does not return. -/
theorem retryLoop_none {W : Type} (t : transport W) (ctx : EdgeXContext W) (e : Event)
    (bytes : Bytes) (k : Nat) :
    ∀ (fuel : Nat) (w : W) (tr : List Action),
      sendResults t.send bytes k w = List.replicate k false → fuel ≤ k →
      retryLoop t ctx e bytes fuel ⟨w, tr⟩ = none := by
  induction k with
  | zero =>
      intro fuel w tr _ hf
      have : fuel = 0 := by omega
      subst this
      rfl
  | succ k ih =>
      intro fuel w tr hr hf
      cases fuel with
      | zero => rfl
      | succ fuel =>
          rcases hs : t.send bytes w with ⟨b, w1⟩
          simp only [sendResults, hs, List.replicate_succ, List.cons.injEq] at hr
          obtain ⟨hb, hr⟩ := hr
          subst hb
          simp only [retryLoop, hs]
          exact ih fuel w1 _ hr (by omega)

/-- With the first true at position `k` and more than `k` units of fuel, the
loop returns after `k` failed attempts and one successful send. -/
theorem retryLoop_some {W : Type} (t : transport W) (ctx : EdgeXContext W) (e : Event)
    (bytes : Bytes) (k : Nat) :
    ∀ (fuel : Nat) (w : W) (tr : List Action),
      sendResults t.send bytes (k + 1) w = List.replicate k false ++ [true] →
      k + 1 ≤ fuel →
      retryLoop t ctx e bytes fuel ⟨w, tr⟩ =
        some ⟨(ctx.MarkAsPushed (worldAfterSends t.send bytes (k + 1) w)).2,
          tr ++ (failedAttempts bytes t.sendFailureWaitInNanoseconds k ++
            ([.send bytes true, .log .debug (sentLogMessage e.ID)] ++
              pushedActions (ctx.MarkAsPushed (worldAfterSends t.send bytes (k + 1) w)).1))⟩ := by
  induction k with
  | zero =>
      intro fuel w tr hr hf
      cases fuel with
      | zero => omega
      | succ fuel =>
          rcases hs : t.send bytes w with ⟨b, w1⟩
          simp only [sendResults, hs, List.replicate_zero, List.nil_append,
            List.cons.injEq, and_true] at hr
          subst hr
          rcases hp : ctx.MarkAsPushed w1 with ⟨r, w2⟩
          cases r <;>
            simp [retryLoop, hs, hp, worldAfterSends, failedAttempts, pushedActions]
  | succ k ih =>
      intro fuel w tr hr hf
      cases fuel with
      | zero => omega
      | succ fuel =>
          rcases hs : t.send bytes w with ⟨b, w1⟩
          rw [sendResults] at hr
          simp only [hs, List.replicate_succ, List.cons_append, List.cons.injEq] at hr
          obtain ⟨hb, hr⟩ := hr
          subst hb
          have h := ih fuel w1 (tr ++ [.send bytes false,
            .sleep t.sendFailureWaitInNanoseconds]) hr (by omega)
          simp only [retryLoop, hs]
          rw [h]
          simp [worldAfterSends, hs, failedAttempts]

/-! ## handleEvent -/

/-- After a successful marshal, `handleEvent` is its retry loop. -/
theorem handleEvent_ok {W : Type} (t : transport W) (ctx : EdgeXContext W) (e : Event)
    (s : St W) (bytes : Bytes) (w1 : W) (fuel : Nat)
    (hm : t.marshal (.eventPtr e) s.world = (.ok bytes, w1)) :
    handleEvent t ctx e fuel s =
      retryLoop t ctx e bytes fuel
        ⟨w1, s.trace ++ [.marshal (.eventPtr e) true]⟩ := by
  simp only [handleEvent, hm]

/-- C1: when the marshal of the event succeeds and the sender's results are
`k` times false and then true, `handleEvent` does not return within `k`
iterations, and with more fuel it returns after exactly `k + 1` sends, all of
the marshalled bytes, exactly `k` sleeps of the configured wait, one after each
failed send, and exactly one `MarkAsPushed`, after the successful send; this
holds whatever `MarkAsPushed` returns, and nothing follows it but the log of
its error. -/
theorem handleEvent_sends_until_success {W : Type} (t : transport W)
    (ctx : EdgeXContext W) (e : Event) (s : St W) (bytes : Bytes) (w1 : W)
    (k fuel : Nat)
    (hm : t.marshal (.eventPtr e) s.world = (.ok bytes, w1))
    (hr : sendResults t.send bytes (k + 1) w1 = List.replicate k false ++ [true]) :
    (fuel ≤ k → handleEvent t ctx e fuel s = none) ∧
    (k + 1 ≤ fuel → ∃ (s1 : St W) (delta : List Action),
      handleEvent t ctx e fuel s = some s1 ∧
      s1.trace = s.trace ++ delta ∧
      delta = .marshal (.eventPtr e) true ::
        (failedAttempts bytes t.sendFailureWaitInNanoseconds k ++
          ([.send bytes true, .log .debug (sentLogMessage e.ID)] ++
            pushedActions
              (ctx.MarkAsPushed (worldAfterSends t.send bytes (k + 1) w1)).1)) ∧
      sends delta = List.replicate k (bytes, false) ++ [(bytes, true)] ∧
      (sends delta).length = k + 1 ∧
      sleeps delta = List.replicate k t.sendFailureWaitInNanoseconds ∧
      marks delta =
        [(ctx.MarkAsPushed (worldAfterSends t.send bytes (k + 1) w1)).1.isNone]) := by
  constructor
  · intro hf
    have hr0 : sendResults t.send bytes k w1 = List.replicate k false := by
      have aux : ∀ (n : Nat) (w : W),
          sendResults t.send bytes (n + 1) w = List.replicate n false ++ [true] →
          sendResults t.send bytes n w = List.replicate n false := by
        intro n
        induction n with
        | zero => intro w _; rfl
        | succ n ih =>
            intro w h
            rw [sendResults] at h
            simp only [List.replicate_succ, List.cons_append, List.cons.injEq] at h
            rw [sendResults, ih _ h.2, h.1, List.replicate_succ]
      exact aux k w1 hr
    rw [handleEvent_ok t ctx e s bytes w1 fuel hm]
    exact retryLoop_none t ctx e bytes k fuel w1 _ hr0 hf
  · intro hf
    have h := retryLoop_some t ctx e bytes k fuel w1
      (s.trace ++ [.marshal (.eventPtr e) true]) hr hf
    rw [← handleEvent_ok t ctx e s bytes w1 fuel hm] at h
    refine ⟨_, _, h, ?_, rfl, ?_, ?_, ?_, ?_⟩
    · simp
    · simp [sends, sends_append, sends_failedAttempts, sends_pushedActions]
    · simp [sends, sends_append, sends_failedAttempts, sends_pushedActions]
    · simp [sleeps, sleeps_append, sleeps_failedAttempts, sleeps_pushedActions]
    · simp [marks, marks_append, marks_failedAttempts, marks_pushedActions]

/-- C1, on the results false, false, true: three sends, two waits and one
`MarkAsPushed`, here returning an error. -/
theorem handleEvent_sends_until_success_witness :
    ∃ (s1 : St (List Bool)) (delta : List Action),
      handleEvent scriptedSender failingContext E1 3 ⟨[false, false, true], []⟩ = some s1 ∧
      s1.trace = [] ++ delta ∧
      delta = .marshal (.eventPtr E1) true ::
        (failedAttempts [1, 2, 3] 1000000000 2 ++
          ([.send [1, 2, 3] true, .log .debug (sentLogMessage E1.ID)] ++
            pushedActions (some "not pushed"))) ∧
      sends delta = List.replicate 2 ([1, 2, 3], false) ++ [([1, 2, 3], true)] ∧
      (sends delta).length = 2 + 1 ∧
      sleeps delta = List.replicate 2 1000000000 ∧
      marks delta = [false] :=
  (handleEvent_sends_until_success scriptedSender failingContext E1
    ⟨[false, false, true], []⟩ [1, 2, 3] [false, false, true] 2 3 rfl rfl).2
    (Nat.le_refl 3)

/-- C2: when the marshaller returns an error, `handleEvent` returns at once,
whatever the fuel and whatever the sender would return: the call of the
marshaller and the warning are all it does, with no send, no sleep and no
`MarkAsPushed`. -/
theorem handleEvent_marshal_error {W : Type} (t : transport W) (ctx : EdgeXContext W)
    (e : Event) (s : St W) (err : String) (w1 : W) (fuel : Nat)
    (hm : t.marshal (.eventPtr e) s.world = (.error err, w1)) :
    ∃ (s1 : St W) (delta : List Action),
      handleEvent t ctx e fuel s = some s1 ∧
      s1.world = w1 ∧
      s1.trace = s.trace ++ delta ∧
      delta = [.marshal (.eventPtr e) false,
        .log .warn (marshalFailedLogMessage e.ID err)] ∧
      sends delta = [] ∧ sleeps delta = [] ∧ marks delta = [] := by
  have h : handleEvent t ctx e fuel s = some ⟨w1, s.trace ++
      [.marshal (.eventPtr e) false,
       .log .warn (marshalFailedLogMessage e.ID err)]⟩ := by
    simp only [handleEvent, hm]
  exact ⟨_, _, h, rfl, rfl, rfl, rfl, rfl, rfl⟩

/-- C2, on an event whose marshal fails, with a sender that would succeed. -/
theorem handleEvent_marshal_error_witness :
    ∃ (s1 : St (List Bool)) (delta : List Action),
      handleEvent scriptedSender nilContext E0 0 ⟨[true], []⟩ = some s1 ∧
      s1.world = [true] ∧
      s1.trace = [] ++ delta ∧
      delta = [.marshal (.eventPtr E0) false,
        .log .warn (marshalFailedLogMessage E0.ID "empty")] ∧
      sends delta = [] ∧ sleeps delta = [] ∧ marks delta = [] :=
  handleEvent_marshal_error scriptedSender nilContext E0 ⟨[true], []⟩ "empty" [true] 0 rfl

/-! ## Notify -/

/-- C7: `Notify` is decided by three cases.  When `DeviceForName` returns an
error it returns false and calls neither the marshaller nor the sender; when
the marshaller returns an error on the resolved device it returns false and
does not call the sender; otherwise it calls the sender exactly once, with the
marshalled bytes of the resolved device, and returns the sender's result. -/
theorem Notify_three_cases {W : Type} (n : notify W) (e : Event) (s : St W) :
    (∀ (err : String) (w1 : W),
      n.metadataClient.DeviceForName e.Device s.world = (.error err, w1) →
      (Notify n e s).1 = false ∧ (Notify n e s).2.world = w1 ∧
      ∃ delta, (Notify n e s).2.trace = s.trace ++ delta ∧
        notifyMarshals delta = [] ∧ notifySends delta = []) ∧
    (∀ (d : Device) (w1 : W) (err : String) (w2 : W),
      n.metadataClient.DeviceForName e.Device s.world = (.ok d, w1) →
      n.marshal (.device d) w1 = (.error err, w2) →
      (Notify n e s).1 = false ∧ (Notify n e s).2.world = w2 ∧
      ∃ delta, (Notify n e s).2.trace = s.trace ++ delta ∧
        notifyMarshals delta = [(.device d, false)] ∧ notifySends delta = []) ∧
    (∀ (d : Device) (w1 : W) (bytes : Bytes) (w2 : W),
      n.metadataClient.DeviceForName e.Device s.world = (.ok d, w1) →
      n.marshal (.device d) w1 = (.ok bytes, w2) →
      (Notify n e s).1 = (n.send bytes w2).1 ∧
      (Notify n e s).2.world = (n.send bytes w2).2 ∧
      ∃ delta, (Notify n e s).2.trace = s.trace ++ delta ∧
        notifyMarshals delta = [(.device d, true)] ∧
        notifySends delta = [(e, bytes, (n.send bytes w2).1)]) := by
  refine ⟨?_, ?_, ?_⟩
  · intro err w1 h
    have hN : Notify n e s = (false, ⟨w1, s.trace ++
        [.deviceForName e.Device false,
         .log .error (deviceCallFailedLogMessage e.ID err)]⟩) := by
      simp only [Notify, h]
    rw [hN]
    exact ⟨rfl, rfl, _, rfl, rfl, rfl⟩
  · intro d w1 err w2 h1 h2
    have hN : Notify n e s = (false, ⟨w2, s.trace ++
        [.deviceForName e.Device true, .notifyMarshal (.device d) false,
         .log .error (marshalFailedLogMessage e.ID err)]⟩) := by
      simp only [Notify, h1, h2]
    rw [hN]
    exact ⟨rfl, rfl, _, rfl, rfl, rfl⟩
  · intro d w1 bytes w2 h1 h2
    have hN : Notify n e s = ((n.send bytes w2).1, ⟨(n.send bytes w2).2, s.trace ++
        [.deviceForName e.Device true, .notifyMarshal (.device d) true,
         .notifySend e bytes (n.send bytes w2).1]⟩) := by
      simp only [Notify, h1, h2]
    rw [hN]
    exact ⟨rfl, rfl, _, rfl, rfl, rfl⟩

/-- C7, on a known device with a sender that fails: one send of the device's
bytes, and `Notify` returns the sender's false. -/
theorem Notify_three_cases_witness :
    (Notify scriptedNotifyImpl E1 ⟨[false], []⟩).1 = (scriptedSend [4, 5] [false]).1 ∧
    (Notify scriptedNotifyImpl E1 ⟨[false], []⟩).2.world = (scriptedSend [4, 5] [false]).2 ∧
    ∃ delta, (Notify scriptedNotifyImpl E1 ⟨[false], []⟩).2.trace = [] ++ delta ∧
      notifyMarshals delta = [(.device ⟨"A", "a device"⟩, true)] ∧
      notifySends delta = [(E1, [4, 5], (scriptedSend [4, 5] [false]).1)] :=
  (Notify_three_cases scriptedNotifyImpl E1 ⟨[false], []⟩).2.2
    ⟨"A", "a device"⟩ [false] [4, 5] [false] rfl rfl

/-! ## The discovery tracker -/

theorem notifies_append (a b : List Action) :
    notifies (a ++ b) = notifies a ++ notifies b := by
  induction a with
  | nil => rfl
  | cons x xs ih => cases x <;> simp [notifies, ih]

theorem rangeLoop_append {W : Type} (t : transport W) (a b : List Event) :
    ∀ ds : DeviceMap × St W, rangeLoop t (a ++ b) ds = rangeLoop t b (rangeLoop t a ds) := by
  induction a with
  | nil => intro ds; rfl
  | cons x xs ih => intro ds; exact ih _

/-- A cached device: the body does nothing. -/
theorem loopBody_cached {W : Type} (t : transport W) (e : Event) (devices : DeviceMap)
    (s : St W) (b : Bool) (h : devices e.Device = some b) :
    loopBody t e devices s = (devices, s) := by
  simp only [loopBody, h]

/-- A device that is not cached: one call of the notifier, and the insertion
when it returns true. -/
theorem loopBody_fresh {W : Type} (t : transport W) (e : Event) (devices : DeviceMap)
    (s : St W) (h : devices e.Device = none) :
    loopBody t e devices s =
      (if (t.notify e s.world).1 then devices.set e.Device true else devices,
       ⟨(t.notify e s.world).2, s.trace ++ (.notify e (t.notify e s.world).1 ::
          if (t.notify e s.world).1
          then [.log .debug (detectedNewDeviceLogMessage e.Device)] else [])⟩) := by
  rcases hn : t.notify e s.world with ⟨r, w1⟩
  cases r <;> simp [loopBody, h, hn]

/-- One more event: the tracker receives it and runs the body. -/
theorem trackerAfter_succ {W : Type} (t : transport W) (evs : List Event) (s : St W)
    (i : Nat) (e : Event) (h : evs[i]? = some e) :
    trackerAfter t evs s (i + 1) =
      loopBody t e (trackerAfter t evs s i).1
        ((trackerAfter t evs s i).2.emit [.chanRecv e]) := by
  have hlt : i < evs.length := by
    rcases Nat.lt_or_ge i evs.length with h1 | h1
    · exact h1
    · rw [List.getElem?_eq_none h1] at h; cases h
  have he : evs[i] = e := by
    rw [List.getElem?_eq_getElem hlt] at h
    exact Option.some.inj h
  have ht : evs.take (i + 1) = evs.take i ++ [e] := by
    rw [List.take_succ, h]; rfl
  simp only [trackerAfter, newDeviceHandler, ht, rangeLoop_append, rangeLoop]

theorem trackerAfter_zero {W : Type} (t : transport W) (evs : List Event) (s : St W) :
    trackerAfter t evs s 0 = (DeviceMap.empty, s) := by
  simp [trackerAfter, newDeviceHandler, rangeLoop]

/-- The notifier calls made for the event at position `i`: none when its device
is cached, one otherwise. -/
theorem notifies_eventActions {W : Type} (t : transport W) (evs : List Event) (s : St W)
    (i : Nat) (e : Event) (h : evs[i]? = some e) :
    notifies (eventActions t evs s i) =
      match (trackerAfter t evs s i).1 e.Device with
      | some _ => []
      | none => [(e, (t.notify e (trackerAfter t evs s i).2.world).1)] := by
  unfold eventActions
  rw [trackerAfter_succ t evs s i e h]
  cases hd : (trackerAfter t evs s i).1 e.Device with
  | some b =>
      rw [loopBody_cached t e _ _ b hd]
      simp [St.emit, notifies]
  | none =>
      rw [loopBody_fresh t e _ _ hd]
      simp only [St.emit, List.append_assoc, List.drop_left]
      by_cases hr : (t.notify e (trackerAfter t evs s i).2.world).1 = true
      · simp [notifies, hr]
      · rw [Bool.not_eq_true] at hr
        simp [notifies, hr]

/-- The map after the event at position `i`. -/
theorem devices_trackerAfter_succ {W : Type} (t : transport W) (evs : List Event)
    (s : St W) (i : Nat) (e : Event) (h : evs[i]? = some e) :
    (trackerAfter t evs s (i + 1)).1 =
      match (trackerAfter t evs s i).1 e.Device with
      | some _ => (trackerAfter t evs s i).1
      | none =>
          if (t.notify e (trackerAfter t evs s i).2.world).1
          then (trackerAfter t evs s i).1.set e.Device true
          else (trackerAfter t evs s i).1 := by
  rw [trackerAfter_succ t evs s i e h]
  cases hd : (trackerAfter t evs s i).1 e.Device with
  | some b => rw [loopBody_cached t e _ _ b hd]
  | none => rw [loopBody_fresh t e _ _ hd]; rfl

theorem invokedAt_iff {W : Type} (t : transport W) (evs : List Event) (s : St W)
    (i : Nat) (e : Event) (h : evs[i]? = some e) :
    invokedAt t evs s i ↔ (trackerAfter t evs s i).1 e.Device = none := by
  unfold invokedAt
  constructor
  · rintro ⟨e1, ok, h1, h2⟩
    rw [h] at h1
    cases h1
    rw [notifies_eventActions t evs s i e h] at h2
    cases hd : (trackerAfter t evs s i).1 e.Device with
    | some b => rw [hd] at h2; cases h2
    | none => rfl
  · intro hd
    refine ⟨e, (t.notify e (trackerAfter t evs s i).2.world).1, h, ?_⟩
    rw [notifies_eventActions t evs s i e h, hd]

theorem not_invokedAt {W : Type} (t : transport W) (evs : List Event) (s : St W)
    (i : Nat) (e : Event) (h : evs[i]? = some e) (hn : ¬ invokedAt t evs s i) :
    notifies (eventActions t evs s i) = [] := by
  rw [invokedAt_iff t evs s i e h] at hn
  rw [notifies_eventActions t evs s i e h]
  cases hd : (trackerAfter t evs s i).1 e.Device with
  | some b => rfl
  | none => exact absurd hd hn

theorem succeededAt_iff {W : Type} (t : transport W) (evs : List Event) (s : St W)
    (i : Nat) (e : Event) (h : evs[i]? = some e) :
    succeededAt t evs s i ↔
      (trackerAfter t evs s i).1 e.Device = none ∧
      (t.notify e (trackerAfter t evs s i).2.world).1 = true := by
  unfold succeededAt
  constructor
  · rintro ⟨e1, h1, h2⟩
    rw [h] at h1
    cases h1
    rw [notifies_eventActions t evs s i e h] at h2
    cases hd : (trackerAfter t evs s i).1 e.Device with
    | some b => rw [hd] at h2; cases h2
    | none =>
        rw [hd] at h2
        simp only [List.cons.injEq, Prod.mk.injEq, true_and, and_true] at h2
        exact ⟨rfl, h2⟩
  · rintro ⟨hd, hr⟩
    refine ⟨e, h, ?_⟩
    rw [notifies_eventActions t evs s i e h, hd]
    simp only [hr]

theorem failedAt_iff {W : Type} (t : transport W) (evs : List Event) (s : St W)
    (i : Nat) (e : Event) (h : evs[i]? = some e) :
    failedAt t evs s i ↔
      (trackerAfter t evs s i).1 e.Device = none ∧
      (t.notify e (trackerAfter t evs s i).2.world).1 = false := by
  unfold failedAt
  constructor
  · rintro ⟨e1, h1, h2⟩
    rw [h] at h1
    cases h1
    rw [notifies_eventActions t evs s i e h] at h2
    cases hd : (trackerAfter t evs s i).1 e.Device with
    | some b => rw [hd] at h2; cases h2
    | none =>
        rw [hd] at h2
        simp only [List.cons.injEq, Prod.mk.injEq, true_and, and_true] at h2
        exact ⟨rfl, h2⟩
  · rintro ⟨hd, hr⟩
    refine ⟨e, h, ?_⟩
    rw [notifies_eventActions t evs s i e h, hd]
    simp only [hr]

theorem getElem?_of_lt (evs : List Event) (i : Nat) (h : i < evs.length) :
    ∃ e, evs[i]? = some e :=
  ⟨evs[i], List.getElem?_eq_getElem h⟩

/-- The cache after `n` events: a name is a key exactly when the notifier call
of an earlier event of that name returned true, and every value is `true`. -/
theorem cache_after {W : Type} (t : transport W) (evs : List Event) (s : St W) :
    ∀ n, n ≤ evs.length → ∀ d : String,
      ((trackerAfter t evs s n).1 d = none ∨ (trackerAfter t evs s n).1 d = some true) ∧
      ((trackerAfter t evs s n).1 d ≠ none ↔
        ∃ j, j < n ∧ deviceAt evs j = some d ∧ succeededAt t evs s j) := by
  intro n
  induction n with
  | zero =>
      intro _ d
      rw [trackerAfter_zero]
      refine ⟨Or.inl rfl, ?_⟩
      constructor
      · intro h; exact absurd rfl h
      · rintro ⟨j, hj, _⟩; omega
  | succ n ih =>
      intro hn d
      obtain ⟨e, he⟩ := getElem?_of_lt evs n (by omega)
      obtain ⟨ih1, ih2⟩ := ih (by omega) d
      have hsucc := succeededAt_iff t evs s n e he
      have hdev : deviceAt evs n = some e.Device := by simp [deviceAt, he]
      rw [devices_trackerAfter_succ t evs s n e he]
      have keep : (∃ j, j < n ∧ deviceAt evs j = some d ∧ succeededAt t evs s j) →
          ∃ j, j < n + 1 ∧ deviceAt evs j = some d ∧ succeededAt t evs s j := by
        rintro ⟨j, hj, h1, h2⟩
        exact ⟨j, by omega, h1, h2⟩
      have back : ¬ succeededAt t evs s n ∨ d ≠ e.Device →
          (∃ j, j < n + 1 ∧ deviceAt evs j = some d ∧ succeededAt t evs s j) →
          ∃ j, j < n ∧ deviceAt evs j = some d ∧ succeededAt t evs s j := by
        rintro hno ⟨j, hj, h1, h2⟩
        rcases Nat.lt_or_ge j n with hlt | hge
        · exact ⟨j, hlt, h1, h2⟩
        · have hjn : j = n := by omega
          subst hjn
          rcases hno with hno | hno
          · exact absurd h2 hno
          · rw [hdev] at h1
            exact absurd (Option.some.inj h1).symm hno
      cases hd : (trackerAfter t evs s n).1 e.Device with
      | some b =>
          refine ⟨ih1, ?_⟩
          have hns : ¬ succeededAt t evs s n := by
            rw [hsucc, hd]; rintro ⟨h, _⟩; cases h
          exact ⟨fun h => keep (ih2.mp h), fun h => ih2.mpr (back (Or.inl hns) h)⟩
      | none =>
          by_cases hr : (t.notify e (trackerAfter t evs s n).2.world).1 = true
          · simp only [hr, if_true]
            by_cases hde : d = e.Device
            · subst hde
              simp only [DeviceMap.set, if_true]
              refine ⟨by simp, fun _ => ⟨n, by omega, hdev, hsucc.mpr ⟨hd, hr⟩⟩,
                fun _ => by simp⟩
            · simp only [DeviceMap.set, if_neg hde]
              exact ⟨ih1, fun h => keep (ih2.mp h),
                fun h => ih2.mpr (back (Or.inr hde) h)⟩
          · simp only [hr]
            have hns : ¬ succeededAt t evs s n := by
              rw [hsucc]; rintro ⟨_, h⟩; exact hr h
            exact ⟨ih1, fun h => keep (ih2.mp h),
              fun h => ih2.mpr (back (Or.inl hns) h)⟩

/-- C3: the tracker invokes the notifier on the event at position `i` if and
only if no earlier event of the same device name had its notifier call return
true; when it does not invoke it, and so for every event of a device already
notified with success, the event causes no notifier call at all. -/
theorem tracker_invokes_iff_not_yet_notified {W : Type} (t : transport W)
    (evs : List Event) (s : St W) (i : Nat) (hi : i < evs.length) :
    (invokedAt t evs s i ↔
      ¬ ∃ j, j < i ∧ deviceAt evs j = deviceAt evs i ∧ succeededAt t evs s j) ∧
    (¬ invokedAt t evs s i → notifies (eventActions t evs s i) = []) ∧
    ((∃ j, j < i ∧ deviceAt evs j = deviceAt evs i ∧ succeededAt t evs s j) →
      notifies (eventActions t evs s i) = []) := by
  obtain ⟨e, he⟩ := getElem?_of_lt evs i hi
  have hdev : deviceAt evs i = some e.Device := by simp [deviceAt, he]
  have key := (cache_after t evs s i (by omega) e.Device).2
  have hiff : invokedAt t evs s i ↔
      ¬ ∃ j, j < i ∧ deviceAt evs j = deviceAt evs i ∧ succeededAt t evs s j := by
    rw [invokedAt_iff t evs s i e he, hdev, ← key]
    exact ⟨fun h => by simp [h], fun h => by simpa using h⟩
  refine ⟨hiff, not_invokedAt t evs s i e he, fun h => ?_⟩
  exact not_invokedAt t evs s i e he (fun hinv => hiff.mp hinv h)

/-- C3, on E1 (device A), E2 (device A), E3 (device B) with every notification
succeeding: E2 causes no notifier call, and the notifier is called exactly for
E1 and E3. -/
theorem tracker_invokes_iff_not_yet_notified_witness :
    notifies (eventActions scriptedNotifier [E1, E2, E3] ⟨[true, true], []⟩ 1) = [] ∧
    notifies (newDeviceHandler scriptedNotifier [E1, E2, E3] ⟨[true, true], []⟩).2.trace =
      [(E1, true), (E3, true)] :=
  ⟨(tracker_invokes_iff_not_yet_notified scriptedNotifier [E1, E2, E3]
      ⟨[true, true], []⟩ 1 (by decide)).2.2 ⟨0, by decide, rfl, E1, rfl, rfl⟩, rfl⟩

/-- C4: the tracker starts from the empty cache; after any number of events a
device name is a key of `devices` if and only if the notifier call of one of
those events, of that device name, returned true; a key present after `n`
events is present after any later number; and one iteration of the loop keeps
every entry and adds the event's device name exactly when the notifier is
called and returns true. -/
theorem cache_invariant {W : Type} (t : transport W) (evs : List Event) (s : St W) :
    (trackerAfter t evs s 0).1 = DeviceMap.empty ∧
    (∀ n, n ≤ evs.length → ∀ d : String,
      ((trackerAfter t evs s n).1 d ≠ none ↔
        ∃ j, j < n ∧ deviceAt evs j = some d ∧ succeededAt t evs s j)) ∧
    (∀ n m, n ≤ m → m ≤ evs.length → ∀ d : String,
      (trackerAfter t evs s n).1 d ≠ none → (trackerAfter t evs s m).1 d ≠ none) ∧
    (∀ (e : Event) (devices : DeviceMap) (st : St W) (d : String),
      (devices d ≠ none → (loopBody t e devices st).1 d = devices d) ∧
      ((loopBody t e devices st).1 d ≠ none ↔
        devices d ≠ none ∨
          (d = e.Device ∧ devices d = none ∧ (t.notify e st.world).1 = true))) := by
  refine ⟨by rw [trackerAfter_zero], fun n hn d => (cache_after t evs s n hn d).2, ?_, ?_⟩
  · intro n m hnm hm d h
    rw [(cache_after t evs s n (by omega) d).2] at h
    rw [(cache_after t evs s m hm d).2]
    obtain ⟨j, hj, h1, h2⟩ := h
    exact ⟨j, by omega, h1, h2⟩
  · intro e devices st d
    cases hd : devices e.Device with
    | some b =>
        rw [loopBody_cached t e devices st b hd]
        refine ⟨fun _ => rfl, fun h => Or.inl h, ?_⟩
        rintro (h | ⟨h1, h2, _⟩)
        · exact h
        · subst h1; rw [hd] at h2; cases h2
    | none =>
        rw [loopBody_fresh t e devices st hd]
        by_cases hr : (t.notify e st.world).1 = true
        · simp only [hr, if_true]
          by_cases hde : d = e.Device
          · subst hde
            simp [DeviceMap.set, hd]
          · simp [DeviceMap.set, hde]
        · simp only [hr]
          simp

/-- C4, on E1, E2, E3 with the notification of E1 failing and the next two
succeeding: `A` is no key after E1, it is one after E2, and after all three
events `A` and `B` are keys and `C` is not. -/
theorem cache_invariant_witness :
    ((trackerAfter scriptedNotifier [E1, E2, E3] ⟨[false, true, true], []⟩ 3).1 "A" ≠ none ↔
      ∃ j, j < 3 ∧ deviceAt [E1, E2, E3] j = some "A" ∧
        succeededAt scriptedNotifier [E1, E2, E3] ⟨[false, true, true], []⟩ j) ∧
    (trackerAfter scriptedNotifier [E1, E2, E3] ⟨[false, true, true], []⟩ 1).1 "A" = none ∧
    (trackerAfter scriptedNotifier [E1, E2, E3] ⟨[false, true, true], []⟩ 2).1 "A"
      = some true ∧
    (trackerAfter scriptedNotifier [E1, E2, E3] ⟨[false, true, true], []⟩ 3).1 "B"
      = some true ∧
    (trackerAfter scriptedNotifier [E1, E2, E3] ⟨[false, true, true], []⟩ 3).1 "C" = none :=
  ⟨(cache_invariant scriptedNotifier [E1, E2, E3] ⟨[false, true, true], []⟩).2.1 3
    (by decide) "A", rfl, rfl, rfl, rfl⟩

/-- C6: when the notifier returns false for the event at position `i`, that
event leaves the cache as it was, without the event's device name; and every
later event of that device name, as long as no notifier call for the name has
returned true in between, causes a fresh notifier call: so does the next event
of the name, and each following one until a call returns true. -/
theorem tracker_retries_after_failure {W : Type} (t : transport W) (evs : List Event)
    (s : St W) (i : Nat) (e : Event) (he : evs[i]? = some e)
    (hf : failedAt t evs s i) :
    (trackerAfter t evs s (i + 1)).1 = (trackerAfter t evs s i).1 ∧
    (trackerAfter t evs s (i + 1)).1 e.Device = none ∧
    (∀ k, i < k → deviceAt evs k = some e.Device →
      (∀ m, i < m → m < k → deviceAt evs m = some e.Device → ¬ succeededAt t evs s m) →
      invokedAt t evs s k) := by
  obtain ⟨hd, hr⟩ := (failedAt_iff t evs s i e he).mp hf
  have hsame : (trackerAfter t evs s (i + 1)).1 = (trackerAfter t evs s i).1 := by
    rw [devices_trackerAfter_succ t evs s i e he, hd]
    simp [hr]
  have hi : i < evs.length := by
    rcases Nat.lt_or_ge i evs.length with h1 | h1
    · exact h1
    · rw [List.getElem?_eq_none h1] at he; cases he
  refine ⟨hsame, by rw [hsame]; exact hd, ?_⟩
  intro k hik hdk hbetween
  have hk : k < evs.length := by
    rcases Nat.lt_or_ge k evs.length with h1 | h1
    · exact h1
    · simp [deviceAt, List.getElem?_eq_none h1] at hdk
  obtain ⟨ek, hek⟩ := getElem?_of_lt evs k hk
  have hdev : ek.Device = e.Device := by
    simp only [deviceAt, hek, Option.map_some', Option.some.injEq] at hdk
    exact hdk
  rw [invokedAt_iff t evs s k ek hek, hdev]
  by_contra hne
  obtain ⟨j, hj, h1, h2⟩ := (cache_after t evs s k (by omega) e.Device).2.mp hne
  rcases Nat.lt_trichotomy j i with hlt | heq | hgt
  · exact ((cache_after t evs s i (by omega) e.Device).2.mpr ⟨j, hlt, h1, h2⟩) hd
  · subst heq
    obtain ⟨_, hr2⟩ := (succeededAt_iff t evs s j e he).mp h2
    rw [hr] at hr2
    cases hr2
  · exact hbetween j hgt hj h1 h2

/-- C6, on E1, E2 of device A with the notification of E1 failing: the cache
stays empty and E2 causes a fresh notifier call. -/
theorem tracker_retries_after_failure_witness :
    (trackerAfter scriptedNotifier [E1, E2] ⟨[false, true], []⟩ 1).1 =
      (trackerAfter scriptedNotifier [E1, E2] ⟨[false, true], []⟩ 0).1 ∧
    (trackerAfter scriptedNotifier [E1, E2] ⟨[false, true], []⟩ 1).1 E1.Device = none ∧
    invokedAt scriptedNotifier [E1, E2] ⟨[false, true], []⟩ 1 :=
  have h := tracker_retries_after_failure scriptedNotifier [E1, E2] ⟨[false, true], []⟩
    0 E1 rfl ⟨E1, rfl, rfl⟩
  ⟨h.1, h.2.1, h.2.2 1 (by decide) rfl (fun m h1 h2 => by omega)⟩

/-! ## The tracker with `Notify` as its notifier -/

theorem notifySends_append (a b : List Action) :
    notifySends (a ++ b) = notifySends a ++ notifySends b := by
  induction a with
  | nil => rfl
  | cons x xs ih => cases x <;> simp [notifySends, ih]

theorem notifySendResultsFor_append (d : String) (a b : List Action) :
    notifySendResultsFor d (a ++ b) =
      notifySendResultsFor d a ++ notifySendResultsFor d b := by
  simp [notifySendResultsFor, notifySends_append]

/-- What one call of `Notify` adds for device `d`: nothing when it stops before
the send or notifies another device, and otherwise its own result. -/
theorem Notify_results {W : Type} (n : notify W) (e : Event) (x : St W) (d : String) :
    ∃ delta, (Notify n e x).2.trace = x.trace ++ delta ∧
      ((notifySendResultsFor d delta = [] ∧ ((Notify n e x).1 = false ∨ e.Device ≠ d)) ∨
       (notifySendResultsFor d delta = [(Notify n e x).1] ∧ e.Device = d)) := by
  rcases h1 : n.metadataClient.DeviceForName e.Device x.world with ⟨r1, w1⟩
  cases r1 with
  | error err =>
      refine ⟨[.deviceForName e.Device false,
        .log .error (deviceCallFailedLogMessage e.ID err)], ?_, Or.inl ⟨rfl, Or.inl ?_⟩⟩
      · simp only [Notify, h1]
      · simp only [Notify, h1]
  | ok dev =>
      rcases h2 : n.marshal (.device dev) w1 with ⟨r2, w2⟩
      cases r2 with
      | error err =>
          refine ⟨[.deviceForName e.Device true, .notifyMarshal (.device dev) false,
            .log .error (marshalFailedLogMessage e.ID err)], ?_, Or.inl ⟨rfl, Or.inl ?_⟩⟩
          · simp only [Notify, h1, h2]
          · simp only [Notify, h1, h2]
      | ok bytes =>
          refine ⟨[.deviceForName e.Device true, .notifyMarshal (.device dev) true,
            .notifySend e bytes (n.send bytes w2).1], ?_, ?_⟩
          · simp only [Notify, h1, h2]
          · have hres : (Notify n e x).1 = (n.send bytes w2).1 := by
              simp only [Notify, h1, h2]
            rw [hres]
            by_cases hde : e.Device = d
            · right
              exact ⟨by simp [notifySendResultsFor, notifySends, hde], hde⟩
            · left
              exact ⟨by simp [notifySendResultsFor, notifySends, hde], Or.inr hde⟩

/-- The results of the new-device sends made for `d` during the first `m`
events: false any number of times, then true exactly when `d` is cached. -/
theorem notify_results_after {W : Type} (n : notify W) (t : transport (St W))
    (ht : t.notify = Notify n) (evs : List Event) (s : St (St W))
    (hs : notifySends s.world.trace = []) (d : String) :
    ∀ m, m ≤ evs.length → ∃ k,
      notifySendResultsFor d (trackerAfter t evs s m).2.world.trace =
        List.replicate k false ++
          (if (trackerAfter t evs s m).1 d = none then [] else [true]) := by
  intro m
  induction m with
  | zero =>
      intro _
      refine ⟨0, ?_⟩
      rw [trackerAfter_zero]
      simp [notifySendResultsFor, hs, DeviceMap.empty]
  | succ m ih =>
      intro hm
      obtain ⟨k, hk⟩ := ih (by omega)
      obtain ⟨e, he⟩ := getElem?_of_lt evs m (by omega)
      rw [trackerAfter_succ t evs s m e he]
      cases hd : (trackerAfter t evs s m).1 e.Device with
      | some b =>
          rw [loopBody_cached t e _ _ b hd]
          exact ⟨k, hk⟩
      | none =>
          rw [loopBody_fresh t e _ _ hd]
          simp only [St.emit, ht]
          obtain ⟨delta, htr, hcase⟩ :=
            Notify_results n e (trackerAfter t evs s m).2.world d
          rw [htr, notifySendResultsFor_append, hk]
          by_cases hde : e.Device = d
          · subst hde
            rw [hd] at hk ⊢
            simp only [if_true, List.append_nil]
            rcases hcase with ⟨h0, hfalse | hne⟩ | ⟨h1, _⟩
            · refine ⟨k, ?_⟩
              rw [h0, hfalse]
              simp [hd]
            · exact absurd rfl hne
            · rw [h1]
              by_cases hr : (Notify n e (trackerAfter t evs s m).2.world).1 = true
              · refine ⟨k, ?_⟩
                simp [hr, DeviceMap.set]
              · rw [Bool.not_eq_true] at hr
                refine ⟨k + 1, ?_⟩
                simp [hr, hd, List.replicate_succ']
          · have hset : (if (Notify n e (trackerAfter t evs s m).2.world).1 = true
                then (trackerAfter t evs s m).1.set e.Device true
                else (trackerAfter t evs s m).1) d = (trackerAfter t evs s m).1 d := by
              split
              · simp [DeviceMap.set, Ne.symm hde]
              · rfl
            rcases hcase with ⟨h0, _⟩ | ⟨_, h1⟩
            · refine ⟨k, ?_⟩
              rw [h0, hset]
              simp
            · exact absurd h1 hde

/-- C5 fails as stated: on two events of device A, with the first new-device
send returning false and the second true, the notification of A succeeds and
yet the send was invoked twice for A. -/
theorem notify_send_twice_for_one_device :
    (newDeviceHandler notifyingTracker [E1, E2] ⟨⟨[false, true], []⟩, []⟩).1 "A"
      = some true ∧
    notifySends
      (newDeviceHandler notifyingTracker [E1, E2] ⟨⟨[false, true], []⟩, []⟩).2.world.trace
      = [(E1, [4, 5], false), (E2, [4, 5], true)] ∧
    ¬ (notifySendResultsFor "A"
      (newDeviceHandler notifyingTracker [E1, E2]
        ⟨⟨[false, true], []⟩, []⟩).2.world.trace).length ≤ 1 := by
  refine ⟨rfl, rfl, ?_⟩
  decide

/-- C5, amended: with `Notify` as the notifier, started with no send made, the
new-device sends made for one device name return false any number of times
and then true at most once, as the last of them, which happens exactly when
the name ends up cached; so at most one send per name returns true; and an
event of a device already notified with success triggers no send and leaves
the notifier's world as it was. -/
theorem notify_send_succeeds_at_most_once {W : Type} (n : notify W)
    (t : transport (St W)) (ht : t.notify = Notify n) (evs : List Event)
    (s : St (St W)) (hs : notifySends s.world.trace = []) :
    (∀ d : String, ∃ k,
      notifySendResultsFor d (newDeviceHandler t evs s).2.world.trace =
        List.replicate k false ++
          (if (newDeviceHandler t evs s).1 d = none then [] else [true])) ∧
    (∀ d : String,
      (notifySendResultsFor d (newDeviceHandler t evs s).2.world.trace).count true ≤ 1) ∧
    (∀ (i : Nat) (e : Event), evs[i]? = some e →
      (trackerAfter t evs s i).1 e.Device ≠ none →
      (trackerAfter t evs s (i + 1)).2.world = (trackerAfter t evs s i).2.world) := by
  have hall : trackerAfter t evs s evs.length = newDeviceHandler t evs s := by
    simp [trackerAfter]
  have shape : ∀ d : String, ∃ k,
      notifySendResultsFor d (newDeviceHandler t evs s).2.world.trace =
        List.replicate k false ++
          (if (newDeviceHandler t evs s).1 d = none then [] else [true]) := by
    intro d
    have h := notify_results_after n t ht evs s hs d evs.length (Nat.le_refl _)
    rw [hall] at h
    exact h
  refine ⟨shape, ?_, ?_⟩
  · intro d
    obtain ⟨k, hk⟩ := shape d
    rw [hk, List.count_append]
    have h0 : (List.replicate k false).count true = 0 := by
      rw [List.count_replicate]; simp
    rw [h0]
    split <;> simp
  · intro i e he hd
    rw [trackerAfter_succ t evs s i e he]
    cases hdev : (trackerAfter t evs s i).1 e.Device with
    | none => exact absurd hdev hd
    | some b =>
        rw [loopBody_cached t e _ _ b hdev]
        rfl

/-- C5 amended, on E1, E2, E2 of device A with the sends returning false and
then true: the results for A are one false and one true, and the third event
makes no send. -/
theorem notify_send_succeeds_at_most_once_witness :
    (∃ k, notifySendResultsFor "A"
        (newDeviceHandler notifyingTracker [E1, E2, E2]
          ⟨⟨[false, true], []⟩, []⟩).2.world.trace =
        List.replicate k false ++
          (if (newDeviceHandler notifyingTracker [E1, E2, E2]
            ⟨⟨[false, true], []⟩, []⟩).1 "A" = none then [] else [true])) ∧
    (trackerAfter notifyingTracker [E1, E2, E2] ⟨⟨[false, true], []⟩, []⟩ 3).2.world =
      (trackerAfter notifyingTracker [E1, E2, E2] ⟨⟨[false, true], []⟩, []⟩ 2).2.world :=
  have h := notify_send_succeeds_at_most_once scriptedNotifyImpl notifyingTracker rfl
    [E1, E2, E2] ⟨⟨[false, true], []⟩, []⟩ rfl
  ⟨h.1 "A", h.2.2 2 E2 rfl (by decide)⟩

/-! ## run -/

theorem chanSends_append (a b : List Action) :
    chanSends (a ++ b) = chanSends a ++ chanSends b := by
  induction a with
  | nil => rfl
  | cons x xs ih => cases x <;> simp [chanSends, ih]

theorem chanSends_failedAttempts (bytes : Bytes) (wait k : Nat) :
    chanSends (failedAttempts bytes wait k) = [] := by
  induction k with
  | zero => rfl
  | succ k ih => simp [failedAttempts, chanSends, ih]

/-- What the retry loop adds to the trace holds no channel send. -/
theorem retryLoop_trace {W : Type} (t : transport W) (ctx : EdgeXContext W) (e : Event)
    (bytes : Bytes) :
    ∀ (fuel : Nat) (s s1 : St W), retryLoop t ctx e bytes fuel s = some s1 →
      ∃ seg, s1.trace = s.trace ++ seg ∧ chanSends seg = [] := by
  intro fuel
  induction fuel with
  | zero => intro s s1 h; cases h
  | succ fuel ih =>
      intro s s1 h
      rcases hs : t.send bytes s.world with ⟨b, w1⟩
      cases b with
      | true =>
          rcases hp : ctx.MarkAsPushed w1 with ⟨r, w2⟩
          cases r with
          | none =>
              simp only [retryLoop, hs, hp, Option.some.injEq] at h
              subst h
              exact ⟨_, rfl, rfl⟩
          | some err =>
              simp only [retryLoop, hs, hp, Option.some.injEq] at h
              subst h
              exact ⟨_, rfl, rfl⟩
      | false =>
          simp only [retryLoop, hs] at h
          obtain ⟨seg, h1, h2⟩ := ih _ s1 h
          refine ⟨[.send bytes false, .sleep t.sendFailureWaitInNanoseconds] ++ seg, ?_, ?_⟩
          · rw [h1]; simp
          · rw [chanSends_append, h2]; rfl

/-- What `handleEvent` adds to the trace holds no channel send. -/
theorem handleEvent_trace {W : Type} (t : transport W) (ctx : EdgeXContext W) (e : Event)
    (fuel : Nat) (s s1 : St W) (h : handleEvent t ctx e fuel s = some s1) :
    ∃ seg, s1.trace = s.trace ++ seg ∧ chanSends seg = [] := by
  rcases hm : t.marshal (.eventPtr e) s.world with ⟨r, w1⟩
  cases r with
  | error err =>
      simp only [handleEvent, hm, Option.some.injEq] at h
      subst h
      exact ⟨_, rfl, rfl⟩
  | ok bytes =>
      rw [handleEvent_ok t ctx e s bytes w1 fuel hm] at h
      obtain ⟨seg, h1, h2⟩ := retryLoop_trace t ctx e bytes fuel _ s1 h
      refine ⟨[.marshal (.eventPtr e) true] ++ seg, ?_, ?_⟩
      · rw [h1]; simp
      · rw [chanSends_append, h2]; rfl

theorem chanSends_insertThenHandle :
    ∀ (evs : List Event) (segs : List (List Action)), segs.length = evs.length →
      (∀ seg, seg ∈ segs → chanSends seg = []) →
      chanSends (insertThenHandle evs segs) = evs := by
  intro evs
  induction evs with
  | nil => intro segs _ _; cases segs <;> rfl
  | cons e es ih =>
      intro segs hl hall
      cases segs with
      | nil => cases hl
      | cons seg segs =>
          simp only [insertThenHandle, chanSends, chanSends_append]
          rw [hall seg (List.mem_cons_self _ _),
            ih segs (by simpa using hl) (fun x hx => hall x (List.mem_cons_of_mem _ hx))]
          rfl

/-- The loop of `run`: each event parameter is put on the channel and then
handled, in the order of the parameters. -/
theorem runLoop_trace {W : Type} (t : transport W) (ctx : EdgeXContext W) (fuel : Nat) :
    ∀ (params : List Value) (s s1 : St W), runLoop t ctx params fuel s = some s1 →
      ∃ segs : List (List Action),
        segs.length = (params.filterMap asEvent).length ∧
        s1.trace = s.trace ++ insertThenHandle (params.filterMap asEvent) segs ∧
        ∀ (i : Nat) (e : Event) (seg : List Action),
          (params.filterMap asEvent)[i]? = some e → segs[i]? = some seg →
          chanSends seg = [] ∧
          ∃ a b : St W, (∃ pre, a.trace = pre ++ [.chanSend e]) ∧
            handleEvent t ctx e fuel a = some b ∧ b.trace = a.trace ++ seg := by
  intro params
  induction params with
  | nil =>
      intro s s1 h
      simp only [runLoop, Option.some.injEq] at h
      subst h
      refine ⟨[], rfl, by simp [insertThenHandle], ?_⟩
      intro i e seg h1
      simp at h1
  | cons p ps ih =>
      intro s s1 h
      cases p with
      | event e =>
          simp only [runLoop] at h
          cases hh : handleEvent t ctx e fuel (s.emit [.chanSend e]) with
          | none => rw [hh] at h; cases h
          | some s2 =>
              rw [hh] at h
              obtain ⟨seg, hseg, hns⟩ := handleEvent_trace t ctx e fuel _ s2 hh
              obtain ⟨segs, hl, htr, hall⟩ := ih s2 s1 h
              refine ⟨seg :: segs, by simp [asEvent, hl], ?_, ?_⟩
              · rw [htr, hseg]
                simp [asEvent, insertThenHandle, St.emit]
              · intro i e1 seg1 h1 h2
                cases i with
                | zero =>
                    simp only [List.filterMap_cons, asEvent, List.getElem?_cons_zero,
                      Option.some.injEq] at h1 h2
                    subst h1 h2
                    exact ⟨hns, _, _, ⟨s.trace, rfl⟩, hh, hseg⟩
                | succ i =>
                    simp only [List.filterMap_cons, asEvent, List.getElem?_cons_succ] at h1 h2
                    exact hall i e1 seg1 h1 h2
      | eventPtr e =>
          simp only [runLoop] at h
          simpa [asEvent] using ih s s1 h
      | device d =>
          simp only [runLoop] at h
          simpa [asEvent] using ih s s1 h
      | other x =>
          simp only [runLoop] at h
          simpa [asEvent] using ih s s1 h

/-- C8: when `run` returns, it returns `true` and its parameters, and what it
added to the trace is, for each parameter that is an `Event` and in the order
of the parameters, the insertion of that event into the queue followed by the
actions of `handleEvent` on it, which hold no insertion.  So the events
inserted are exactly the `Event` parameters in their order, whether or not
their marshal fails, and every event is inserted before any send for it. -/
theorem run_inserts_events_in_order {W : Type} (t : transport W) (ctx : EdgeXContext W)
    (params : List Value) (fuel : Nat) (s s1 : St W) (r : Bool × List Value)
    (h : run t ctx params fuel s = some (r, s1)) :
    r = (true, params) ∧
    ∃ (delta : List Action) (segs : List (List Action)),
      s1.trace = s.trace ++ delta ∧
      chanSends delta = params.filterMap asEvent ∧
      segs.length = (params.filterMap asEvent).length ∧
      delta = insertThenHandle (params.filterMap asEvent) segs ∧
      ∀ (i : Nat) (e : Event) (seg : List Action),
        (params.filterMap asEvent)[i]? = some e → segs[i]? = some seg →
        chanSends seg = [] ∧
        ∃ a b : St W, (∃ pre, a.trace = pre ++ [.chanSend e]) ∧
          handleEvent t ctx e fuel a = some b ∧ b.trace = a.trace ++ seg := by
  unfold run at h
  cases hl : runLoop t ctx params fuel s with
  | none => rw [hl] at h; cases h
  | some s2 =>
      rw [hl] at h
      simp only [Option.some.injEq, Prod.mk.injEq] at h
      obtain ⟨hr, hs⟩ := h
      subst hs
      obtain ⟨segs, hlen, htr, hall⟩ := runLoop_trace t ctx fuel params s s2 hl
      refine ⟨hr.symm, _, segs, htr, ?_, hlen, rfl, hall⟩
      apply chanSends_insertThenHandle _ _ hlen
      intro seg hseg
      obtain ⟨i, hi, hget⟩ := List.getElem_of_mem hseg
      have hi2 : i < (params.filterMap asEvent).length := by omega
      exact (hall i ((params.filterMap asEvent)[i]) seg
        (List.getElem?_eq_getElem hi2) (by rw [List.getElem?_eq_getElem hi, hget])).1

/-- C8, on the parameters E0 (whose marshal fails), a value that is no event,
and E1 (sent at the second attempt): `run` returns, and it inserted E0 and
then E1, E0 without any send and E1 before its two sends. -/
theorem run_inserts_events_in_order_witness :
    (∃ s1, run scriptedSender nilContext [.event E0, .other "x", .event E1] 2
        ⟨[false, true], []⟩ = some ((true, [.event E0, .other "x", .event E1]), s1) ∧
      s1.trace =
        [.chanSend E0, .marshal (.eventPtr E0) false,
         .log .warn (marshalFailedLogMessage E0.ID "empty"),
         .chanSend E1, .marshal (.eventPtr E1) true,
         .send [1, 2, 3] false, .sleep 1000000000,
         .send [1, 2, 3] true, .log .debug (sentLogMessage E1.ID),
         .markAsPushed true]) ∧
    ∃ (delta : List Action) (segs : List (List Action)),
      (St.mk [] (
        [.chanSend E0, .marshal (.eventPtr E0) false,
         .log .warn (marshalFailedLogMessage E0.ID "empty"),
         .chanSend E1, .marshal (.eventPtr E1) true,
         .send [1, 2, 3] false, .sleep 1000000000,
         .send [1, 2, 3] true, .log .debug (sentLogMessage E1.ID),
         .markAsPushed true]) : St (List Bool)).trace = [] ++ delta ∧
      chanSends delta = [E0, E1] ∧
      segs.length = 2 ∧
      delta = insertThenHandle [E0, E1] segs :=
  have h := run_inserts_events_in_order scriptedSender nilContext
    [.event E0, .other "x", .event E1] 2 ⟨[false, true], []⟩ _ _ rfl
  ⟨⟨_, rfl, rfl⟩, h.2.imp fun _ hd => hd.imp fun _ hs => ⟨hs.1, hs.2.1, hs.2.2.1, hs.2.2.2.1⟩⟩

/-! ## CleanUp -/

/-- C9 fails as stated: after a first `CleanUp` has returned, with the queue
closed, the tracker returned and the callback called once, a second `CleanUp`
panics at `close(t.events)`. -/
theorem CleanUp_twice_panics :
    (exec scriptedSender (NewTransport [])
      [.call .CleanUp, .main, .tracker, .main, .main]).main.isIdle = true ∧
    (exec scriptedSender (NewTransport [])
      [.call .CleanUp, .main, .tracker, .main, .main]).closed = true ∧
    (exec scriptedSender (NewTransport [])
      [.call .CleanUp, .main, .tracker, .main, .main]).tracker = .exited ∧
    (exec scriptedSender (NewTransport [])
      [.call .CleanUp, .main, .tracker, .main, .main]).st.trace = [.chanClose, .cleanUp] ∧
    (exec scriptedSender (NewTransport [])
      [.call .CleanUp, .main, .tracker, .main, .main,
       .call .CleanUp, .main]).hasPanicked = true ∧
    (exec scriptedSender (NewTransport [])
      [.call .CleanUp, .main, .tracker, .main, .main,
       .call .CleanUp, .main]).main.isIdle = false := by
  refine ⟨rfl, rfl, rfl, rfl, rfl, rfl⟩

theorem chanRecvs_append (a b : List Action) :
    chanRecvs (a ++ b) = chanRecvs a ++ chanRecvs b := by
  induction a with
  | nil => rfl
  | cons x xs ih => cases x <;> simp [chanRecvs, ih]

theorem cleanUps_append (a b : List Action) :
    cleanUps (a ++ b) = cleanUps a + cleanUps b := by
  induction a with
  | nil => simp [cleanUps]
  | cons x xs ih =>
      cases x
      all_goals simp [cleanUps, ih]
      omega

theorem chanCloses_append (a b : List Action) :
    chanCloses (a ++ b) = chanCloses a + chanCloses b := by
  induction a with
  | nil => simp [chanCloses]
  | cons x xs ih =>
      cases x
      all_goals simp [chanCloses, ih]
      omega

/-- The body of the tracker's loop only appends calls of the notifier and log
lines to the trace. -/
theorem loopBody_trace {W : Type} (t : transport W) (e : Event) (devices : DeviceMap)
    (s : St W) :
    ∃ delta, (loopBody t e devices s).2.trace = s.trace ++ delta ∧
      chanSends delta = [] ∧ chanRecvs delta = [] ∧ cleanUps delta = 0 ∧
      chanCloses delta = 0 := by
  cases hd : devices e.Device with
  | some b =>
      rw [loopBody_cached t e devices s b hd]
      exact ⟨[], by simp, rfl, rfl, rfl, rfl⟩
  | none =>
      rw [loopBody_fresh t e devices s hd]
      refine ⟨_, rfl, ?_, ?_, ?_, ?_⟩
      all_goals cases (t.notify e s.world).1
      all_goals rfl

theorem Inv_NewTransport {W : Type} (w : W) : Inv (NewTransport w) := by
  constructor
  all_goals simp [NewTransport, chanSends, chanRecvs, chanCloses, cleanUps,
    mainPc.isCleanWait, mainPc.isCleanCall]

theorem Inv_trackerStep {W : Type} (t : transport W) (m m1 : Machine W) (h : Inv m)
    (hs : trackerStep t m = some m1) : Inv m1 := by
  obtain ⟨h1, h2, h3, h4, h5, h6, h7, h8, h9, h10⟩ := h
  unfold trackerStep at hs
  split at hs
  · split at hs
    · cases hs
      constructor
      all_goals simp_all [St.emit, chanSends_append, chanRecvs_append, cleanUps_append,
          chanCloses_append, chanSends, chanRecvs, cleanUps, chanCloses]
      all_goals omega
    · split at hs
      · cases hs
        constructor
        all_goals simp_all [St.emit, chanSends_append, chanRecvs_append, cleanUps_append,
          chanCloses_append, chanSends, chanRecvs, cleanUps, chanCloses]
      · cases hs
  · rename_i e he
    obtain ⟨delta, hd1, hd2, hd3, hd4, hd5⟩ := loopBody_trace t e m.devices m.st
    rcases hl : loopBody t e m.devices m.st with ⟨d, s2⟩
    rw [hl] at hs hd1
    cases hs
    constructor
    all_goals simp_all [St.emit, chanSends_append, chanRecvs_append, cleanUps_append,
          chanCloses_append, chanSends, chanRecvs, cleanUps, chanCloses]
  · cases hs

theorem mainPc_eq_cleanWait {W : Type} (p : mainPc W) (h : p.isCleanWait = true) :
    p = .cleanWait := by
  cases p <;> simp_all [mainPc.isCleanWait]

theorem mainPc_eq_cleanCall {W : Type} (p : mainPc W) (h : p.isCleanCall = true) :
    p = .cleanCall := by
  cases p <;> simp_all [mainPc.isCleanCall]

set_option maxHeartbeats 4000000 in
theorem Inv_mainStep {W : Type} (t : transport W) (m m1 : Machine W) (h : Inv m)
    (hs : mainStep t m = some m1) : Inv m1 := by
  obtain ⟨h1, h2, h3, h4, h5, h6, h7, h8, h9, h10⟩ := h
  by_cases hw : m.main.isCleanWait = true
  · have hm := mainPc_eq_cleanWait m.main hw
    simp only [mainStep, hm] at hs
    split at hs
    · rename_i hwg
      cases hs
      exact ⟨h1, h2, h3, h4, h5, fun _ => h6 (Or.inl hw), fun _ => hwg, h8, h9, h10⟩
    · cases hs
  by_cases hc : m.main.isCleanCall = true
  · have hm := mainPc_eq_cleanCall m.main hc
    simp only [mainStep, hm, Option.some.injEq] at hs
    subst hs
    obtain ⟨hcl, hcu⟩ := h6 (Or.inr hc)
    have hex : m.tracker = .exited := by
      have hwg := h7 hc
      by_cases hx : m.tracker = .exited
      · exact hx
      · rw [if_neg hx] at h1; omega
    refine ⟨h1, h2, ?_, h4, ?_, ?_, ?_, ?_, ?_, fun _ => hex⟩
    · simpa [chanSends_append, chanRecvs_append, chanSends, chanRecvs] using h3
    · simpa [chanCloses_append, chanCloses] using h5
    · intro hx; simp [mainPc.isCleanWait, mainPc.isCleanCall] at hx
    · intro hx; simp [mainPc.isCleanCall] at hx
    · intro hx; simp [hcl] at hx
    · simp [cleanUps_append, cleanUps, hcu]
  · unfold mainStep at hs
    split at hs
    all_goals try (exact absurd (by rw [‹m.main = mainPc.cleanWait›]; rfl) hw)
    all_goals try (exact absurd (by rw [‹m.main = mainPc.cleanCall›]; rfl) hc)
    all_goals try split at hs
    all_goals try split at hs
    all_goals cases hs
    all_goals constructor
    all_goals simp_all [St.emit, chanSends_append, chanRecvs_append, cleanUps_append,
          chanCloses_append, chanSends, chanRecvs, cleanUps, chanCloses,
          mainPc.isCleanWait, mainPc.isCleanCall]
    all_goals omega

theorem mainPc_eq_idle {W : Type} (p : mainPc W) (h : p.isIdle = true) : p = .idle := by
  cases p <;> simp_all [mainPc.isIdle]

theorem Inv_step {W : Type} (t : transport W) (m m1 : Machine W) (c : Choice W)
    (h : Inv m) (hs : step t m c = some m1) : Inv m1 := by
  cases c with
  | tracker =>
      simp only [step] at hs
      split at hs
      · cases hs
      · exact Inv_trackerStep t m m1 h hs
  | main => exact Inv_mainStep t m m1 h hs
  | call c =>
      obtain ⟨h1, h2, h3, h4, h5, h6, h7, h8, h9, h10⟩ := h
      simp only [step] at hs
      split at hs
      · cases c with
        | run ctx params =>
            cases hs
            exact ⟨h1, h2, h3, h4, h5,
              fun hx => by simp [mainPc.isCleanWait, mainPc.isCleanCall] at hx,
              fun hx => by simp [mainPc.isCleanCall] at hx, h8, h9, h10⟩
        | CleanUp =>
            cases hs
            exact ⟨h1, h2, h3, h4, h5,
              fun hx => by simp [mainPc.isCleanWait, mainPc.isCleanCall] at hx,
              fun hx => by simp [mainPc.isCleanCall] at hx, h8, h9, h10⟩
      · cases hs

/-- The invariant holds along every schedule. -/
theorem Inv_exec {W : Type} (t : transport W) (sched : List (Choice W)) :
    ∀ m : Machine W, Inv m → Inv (exec t m sched) := by
  induction sched with
  | nil => intro m h; exact h
  | cons c cs ih =>
      intro m h
      simp only [exec]
      apply ih
      cases hs : step t m c with
      | none => exact h
      | some m1 => exact Inv_step t m m1 c h hs

theorem exec_append {W : Type} (t : transport W) (a b : List (Choice W)) :
    ∀ m : Machine W, exec t m (a ++ b) = exec t (exec t m a) b := by
  induction a with
  | nil => intro m; rfl
  | cons c cs ih => intro m; exact ih _

/-- A step of the calling goroutine leaves the tracker, its map and the wait
group alone, and adds no notifier call and no receive to the trace. -/
theorem mainStep_frame {W : Type} (t : transport W) (m m1 : Machine W)
    (hs : mainStep t m = some m1) :
    m1.tracker = m.tracker ∧ m1.devices = m.devices ∧ m1.wg = m.wg ∧
    notifies m1.st.trace = notifies m.st.trace ∧
    chanRecvs m1.st.trace = chanRecvs m.st.trace ∧
    cleanUps m.st.trace ≤ cleanUps m1.st.trace := by
  unfold mainStep at hs
  split at hs
  all_goals try split at hs
  all_goals try split at hs
  all_goals cases hs
  all_goals simp [St.emit, notifies_append, chanRecvs_append, cleanUps_append,
    notifies, chanRecvs, cleanUps]

/-- Once the tracker has returned, nothing touches its map, and the trace gains
no notifier call and no receive, whatever is scheduled. -/
theorem exec_after_exit {W : Type} (t : transport W) (sched : List (Choice W)) :
    ∀ m : Machine W, m.tracker = .exited →
      (exec t m sched).tracker = .exited ∧ (exec t m sched).devices = m.devices ∧
      notifies (exec t m sched).st.trace = notifies m.st.trace ∧
      chanRecvs (exec t m sched).st.trace = chanRecvs m.st.trace ∧
      cleanUps m.st.trace ≤ cleanUps (exec t m sched).st.trace := by
  induction sched with
  | nil => intro m h; exact ⟨h, rfl, rfl, rfl, Nat.le_refl _⟩
  | cons c cs ih =>
      intro m h
      simp only [exec]
      cases hs : step t m c with
      | none => exact ih m h
      | some m1 =>
          have hf : m1.tracker = m.tracker ∧ m1.devices = m.devices ∧
              notifies m1.st.trace = notifies m.st.trace ∧
              chanRecvs m1.st.trace = chanRecvs m.st.trace ∧
              cleanUps m.st.trace ≤ cleanUps m1.st.trace := by
            cases c with
            | tracker =>
                simp only [step, trackerStep, h] at hs
                split at hs <;> cases hs
            | main =>
                obtain ⟨a, b, _, d, e, f⟩ := mainStep_frame t m m1 hs
                exact ⟨a, b, d, e, f⟩
            | call c =>
                simp only [step] at hs
                split at hs
                · cases c <;> cases hs <;> exact ⟨rfl, rfl, rfl, rfl, Nat.le_refl _⟩
                · cases hs
          obtain ⟨a, b, c1, d, e⟩ := hf
          obtain ⟨i1, i2, i3, i4, i5⟩ := ih m1 (by rw [a, h])
          simp only [Option.getD_some]
          exact ⟨i1, by rw [i2, b], by rw [i3, c1], by rw [i4, d], by omega⟩

/-! ## Draining the channel -/

theorem step_tracker_recv {W : Type} (t : transport W) (m : Machine W) (e : Event)
    (rest : List Event) (hp : m.hasPanicked = false) (ht : m.tracker = .ranging)
    (he : m.events = e :: rest) :
    step t m .tracker =
      some { m with events := rest, tracker := .holding e,
                    st := m.st.emit [.chanRecv e] } := by
  simp only [step, hp, trackerStep, ht, he]
  rfl

theorem step_tracker_exit {W : Type} (t : transport W) (m : Machine W)
    (hp : m.hasPanicked = false) (ht : m.tracker = .ranging) (he : m.events = [])
    (hc : m.closed = true) :
    step t m .tracker = some { m with tracker := .exited, wg := m.wg - 1 } := by
  simp only [step, hp, trackerStep, ht, he, hc]
  rfl

theorem step_tracker_body {W : Type} (t : transport W) (m : Machine W) (e : Event)
    (hp : m.hasPanicked = false) (ht : m.tracker = .holding e) :
    step t m .tracker =
      some { m with devices := (loopBody t e m.devices m.st).1,
                    st := (loopBody t e m.devices m.st).2, tracker := .ranging } := by
  simp only [step, hp, trackerStep, ht]
  rfl

theorem exec_tracker_exited {W : Type} (t : transport W) (n : Nat) :
    ∀ m : Machine W, m.tracker = .exited →
      exec t m (List.replicate n .tracker) = m := by
  induction n with
  | zero => intro m _; rfl
  | succ n ih =>
      intro m h
      have hs : step t m .tracker = none := by
        simp only [step, trackerStep, h]
        split <;> rfl
      simp only [List.replicate_succ, exec, hs, Option.getD_none]
      exact ih m h

/-- With the channel closed, a tracker at the head of its loop takes the
remaining events one by one and returns. -/
theorem drain_ranging {W : Type} (t : transport W) :
    ∀ (evs : List Event) (m : Machine W) (n : Nat), m.events = evs →
      m.tracker = .ranging → m.closed = true → m.hasPanicked = false →
      2 * evs.length + 1 ≤ n →
      (exec t m (List.replicate n .tracker)).tracker = .exited ∧
      (exec t m (List.replicate n .tracker)).events = [] ∧
      (exec t m (List.replicate n .tracker)).closed = true ∧
      (exec t m (List.replicate n .tracker)).main = m.main ∧
      ∃ mid, (exec t m (List.replicate n .tracker)).st.trace = m.st.trace ++ mid ∧
        chanSends mid = [] ∧ cleanUps mid = 0 ∧ chanCloses mid = 0 ∧
        chanRecvs mid = evs := by
  intro evs
  induction evs with
  | nil =>
      intro m n he ht hc hp hn
      obtain ⟨k, rfl⟩ : ∃ k, n = k + 1 := ⟨n - 1, by omega⟩
      simp only [List.replicate_succ, exec, step_tracker_exit t m hp ht he hc,
        Option.getD_some]
      rw [exec_tracker_exited t k _ rfl]
      exact ⟨rfl, he, hc, rfl, [], by simp, rfl, rfl, rfl, rfl⟩
  | cons e rest ih =>
      intro m n he ht hc hp hn
      obtain ⟨k, rfl⟩ : ∃ k, n = k + 2 := ⟨n - 2, by simp at hn; omega⟩
      simp only [List.replicate_succ, exec, step_tracker_recv t m e rest hp ht he,
        Option.getD_some]
      have hb := step_tracker_body t
        { m with events := rest, tracker := .holding e,
                 st := m.st.emit [.chanRecv e] } e hp rfl
      rw [hb]
      simp only [Option.getD_some]
      obtain ⟨delta, hd1, hd2, hd3, hd4, hd5⟩ :=
        loopBody_trace t e m.devices (m.st.emit [.chanRecv e])
      obtain ⟨i1, i2, i3, i4, mid, i5, i6, i7, i8, i9⟩ :=
        ih { m with events := rest, tracker := .ranging,
                    devices := (loopBody t e m.devices (m.st.emit [.chanRecv e])).1,
                    st := (loopBody t e m.devices (m.st.emit [.chanRecv e])).2 }
          k rfl rfl hc hp (by simp at hn; omega)
      refine ⟨i1, i2, i3, i4, [.chanRecv e] ++ delta ++ mid, ?_, ?_, ?_, ?_, ?_⟩
      · rw [i5, hd1]; simp [St.emit]
      · simp [chanSends_append, hd2, i6, chanSends]
      · simp [cleanUps_append, hd4, i7, cleanUps]
      · simp [chanCloses_append, hd5, i8, chanCloses]
      · simp [chanRecvs_append, hd3, i9, chanRecvs]

/-- With the channel closed, the tracker returns within two steps per queued
event and two more, wherever it stands, having received every queued event. -/
theorem drain {W : Type} (t : transport W) (m : Machine W) (n : Nat) (hi : Inv m)
    (hc : m.closed = true) (hp : m.hasPanicked = false)
    (hn : 2 * m.events.length + 2 ≤ n) :
    (exec t m (List.replicate n .tracker)).tracker = .exited ∧
    (exec t m (List.replicate n .tracker)).events = [] ∧
    (exec t m (List.replicate n .tracker)).closed = true ∧
    (exec t m (List.replicate n .tracker)).main = m.main ∧
    ∃ mid, (exec t m (List.replicate n .tracker)).st.trace = m.st.trace ++ mid ∧
      chanSends mid = [] ∧ cleanUps mid = 0 ∧ chanCloses mid = 0 ∧
      chanRecvs mid = m.events := by
  cases ht : m.tracker with
  | ranging => exact drain_ranging t m.events m n rfl ht hc hp (by omega)
  | exited =>
      rw [exec_tracker_exited t n m ht]
      have he := (hi.exited_drained ht).2
      exact ⟨ht, he, hc, rfl, [], by simp, rfl, rfl, rfl, by rw [he]; rfl⟩
  | holding e =>
      obtain ⟨k, rfl⟩ : ∃ k, n = k + 1 := ⟨n - 1, by omega⟩
      simp only [List.replicate_succ, exec, step_tracker_body t m e hp ht,
        Option.getD_some]
      obtain ⟨delta, hd1, hd2, hd3, hd4, hd5⟩ := loopBody_trace t e m.devices m.st
      obtain ⟨i1, i2, i3, i4, mid, i5, i6, i7, i8, i9⟩ :=
        drain_ranging t m.events
          { m with devices := (loopBody t e m.devices m.st).1,
                   st := (loopBody t e m.devices m.st).2, tracker := .ranging }
          k rfl rfl hc hp (by omega)
      refine ⟨i1, i2, i3, i4, delta ++ mid, ?_, ?_, ?_, ?_, ?_⟩
      · rw [i5, hd1]; simp
      · simp [chanSends_append, hd2, i6]
      · simp [cleanUps_append, hd4, i7]
      · simp [chanCloses_append, hd5, i8]
      · simp [chanRecvs_append, hd3, i9]

theorem hasPanicked_of_main {W : Type} (m m1 : Machine W) (h : m1.main = m.main) :
    m1.hasPanicked = m.hasPanicked := by
  simp only [Machine.hasPanicked, h]

theorem hasPanicked_idle {W : Type} (m : Machine W) (h : m.main.isIdle = true) :
    m.hasPanicked = false := by
  simp only [Machine.hasPanicked, mainPc_eq_idle m.main h]

/-- A panicked program takes no further step. -/
theorem exec_panicked {W : Type} (t : transport W) (sched : List (Choice W)) :
    ∀ m : Machine W, m.hasPanicked = true → exec t m sched = m := by
  induction sched with
  | nil => intro m _; rfl
  | cons c cs ih =>
      intro m h
      have hs : step t m c = none := by
        cases hm : m.main with
        | panicked msg =>
            cases c with
            | tracker => simp only [step, h]; rfl
            | main => simp only [step, mainStep, hm]
            | call c => simp only [step, hm]
        | _ => simp [Machine.hasPanicked, hm] at h
      simp only [exec, hs, Option.getD_none]
      exact ih m h

/-- The callback and its mark in the trace go together: a step of the calling
goroutine either leaves the number of marks as it is, or it is the step from
before the callback, which applies `t.cleanUp` to the world and adds one mark. -/
theorem mainStep_cleanUp {W : Type} (t : transport W) (m m1 : Machine W)
    (hs : mainStep t m = some m1) :
    cleanUps m1.st.trace = cleanUps m.st.trace ∨
    (m.main.isCleanCall = true ∧ m1.st.world = t.cleanUp m.st.world ∧
      m1.st.trace = m.st.trace ++ [.cleanUp] ∧
      cleanUps m1.st.trace = cleanUps m.st.trace + 1) := by
  unfold mainStep at hs
  split at hs
  all_goals try split at hs
  all_goals try split at hs
  all_goals cases hs
  all_goals simp_all [St.emit, cleanUps_append, cleanUps, mainPc.isCleanCall]

/-- The same for any scheduled step: only the step from before the callback
adds a mark, and it applies `t.cleanUp` to the world. -/
theorem exec_one_cleanUp {W : Type} (t : transport W) (m : Machine W) (c : Choice W) :
    cleanUps (exec t m [c]).st.trace = cleanUps m.st.trace ∨
    (m.main.isCleanCall = true ∧ (exec t m [c]).st.world = t.cleanUp m.st.world ∧
      (exec t m [c]).st.trace = m.st.trace ++ [.cleanUp] ∧
      cleanUps (exec t m [c]).st.trace = cleanUps m.st.trace + 1) := by
  simp only [exec]
  cases hs : step t m c with
  | none => exact Or.inl rfl
  | some m1 =>
      simp only [Option.getD_some]
      cases c with
      | main => exact mainStep_cleanUp t m m1 hs
      | call c =>
          left
          simp only [step] at hs
          split at hs
          · cases c <;> cases hs <;> rfl
          · cases hs
      | tracker =>
          left
          simp only [step] at hs
          split at hs
          · cases hs
          · unfold trackerStep at hs
            split at hs
            · split at hs
              · cases hs
                simp [St.emit, cleanUps_append, cleanUps]
              · split at hs
                · cases hs; rfl
                · cases hs
            · rename_i e he
              obtain ⟨delta, hd1, _, _, hd4, _⟩ := loopBody_trace t e m.devices m.st
              rcases hl : loopBody t e m.devices m.st with ⟨d, s2⟩
              rw [hl] at hs hd1
              cases hs
              simp only at hd1 ⊢
              rw [hd1, cleanUps_append, hd4]
              rfl
            · cases hs

/-- The step from before the callback calls it: the world becomes `t.cleanUp`
of the world, the trace gains the mark, and `CleanUp` returns. -/
theorem exec_cleanCall {W : Type} (t : transport W) (m : Machine W)
    (h : m.main.isCleanCall = true) :
    (exec t m [.main]).st.world = t.cleanUp m.st.world ∧
    (exec t m [.main]).st.trace = m.st.trace ++ [.cleanUp] ∧
    (exec t m [.main]).main.isIdle = true := by
  have hm := mainPc_eq_cleanCall m.main h
  have hs : step t m .main = some { m with
      st := { world := t.cleanUp m.st.world, trace := m.st.trace ++ [.cleanUp] },
      main := .idle } := by
    simp only [step, mainStep, hm]
  rw [show exec t m [.main] = (step t m .main).getD m from rfl, hs]
  exact ⟨rfl, rfl, rfl⟩

/-- The first `CleanUp`: from a state of an open transport outside any method,
once the tracker is given its steps, `CleanUp` closes the queue, the tracker
receives what is queued and returns, and only then the callback is called,
once; then `CleanUp` returns. -/
theorem CleanUp_completes {W : Type} (t : transport W) (m : Machine W) (n : Nat)
    (hi : Inv m) (hidle : m.main.isIdle = true) (hopen : m.closed = false)
    (hn : 2 * m.events.length + 2 ≤ n) :
    (exec t m ([.call .CleanUp, .main] ++ List.replicate n .tracker ++
      [.main, .main])).main.isIdle = true ∧
    (exec t m ([.call .CleanUp, .main] ++ List.replicate n .tracker ++
      [.main, .main])).closed = true ∧
    (exec t m ([.call .CleanUp, .main] ++ List.replicate n .tracker ++
      [.main, .main])).tracker = .exited ∧
    (exec t m ([.call .CleanUp, .main] ++ List.replicate n .tracker ++
      [.main, .main])).events = [] ∧
    cleanUps (exec t m ([.call .CleanUp, .main] ++ List.replicate n .tracker ++
      [.main, .main])).st.trace = 1 ∧
    (∃ mid, (exec t m ([.call .CleanUp, .main] ++ List.replicate n .tracker ++
        [.main, .main])).st.trace = m.st.trace ++ .chanClose :: (mid ++ [.cleanUp]) ∧
      chanSends mid = [] ∧ cleanUps mid = 0 ∧ chanCloses mid = 0 ∧
      chanRecvs mid = m.events) ∧
    (exec t m ([.call .CleanUp, .main] ++ List.replicate n .tracker ++
      [.main, .main])).st.world =
      t.cleanUp
        (exec t m ([.call .CleanUp, .main] ++ List.replicate n .tracker)).st.world := by
  have hm := mainPc_eq_idle m.main hidle
  have h1 : step t m (.call .CleanUp) = some { m with main := .cleanClose } := by
    simp only [step, hm]
  have h2 : step t { m with main := .cleanClose } .main =
      some { m with closed := true, st := m.st.emit [.chanClose], main := .cleanWait } := by
    simp only [step, mainStep, hopen]
    rfl
  have hi2 :
      Inv { m with closed := true, st := m.st.emit [.chanClose], main := .cleanWait } :=
    Inv_step t _ _ _ (Inv_step t _ _ _ hi h1) h2
  obtain ⟨d1, d2, d3, d4, mid, d5, d6, d7, d8, d9⟩ :=
    drain t { m with closed := true, st := m.st.emit [.chanClose], main := .cleanWait }
      n hi2 rfl rfl hn
  have hi3 := Inv_exec t (List.replicate n .tracker) _ hi2
  have hwg := hi3.wg_eq
  rw [if_pos d1] at hwg
  have hmid : exec t m ([.call .CleanUp, .main] ++ List.replicate n .tracker) =
      exec t { m with closed := true, st := m.st.emit [.chanClose], main := .cleanWait }
        (List.replicate n .tracker) := by
    rw [exec_append]
    simp only [exec, h1, h2, Option.getD_some]
  rw [hmid, exec_append, exec_append]
  simp only [exec, h1, h2, Option.getD_some]
  generalize exec t
    { m with closed := true, st := m.st.emit [.chanClose], main := .cleanWait }
    (List.replicate n .tracker) = m3 at d1 d2 d3 d4 d5 hi3 hwg ⊢
  have h4 : step t m3 .main = some { m3 with main := .cleanCall } := by
    simp only [step, mainStep, d4, hwg]
    rfl
  have h5 : step t { m3 with main := .cleanCall } .main =
      some { m3 with
        st := { world := t.cleanUp m3.st.world, trace := m3.st.trace ++ [.cleanUp] },
        main := .idle } := by
    simp only [step, mainStep]
  simp only [h4, h5, Option.getD_some]
  have h0 := hi.open_no_cleanUp hopen
  refine ⟨rfl, d3, d1, d2, ?_, ⟨mid, ?_, d6, d7, d8, d9⟩, trivial⟩
  · simp only [d5, St.emit, cleanUps_append, cleanUps, h0, d7]
  · simp only [d5, St.emit]
    simp

/-- A `CleanUp` past its `close` cannot get stuck: from the wait or from before
the callback, once the tracker has had its steps, the callback is called, once,
with the tracker returned and the queue empty, and `CleanUp` returns. -/
theorem CleanUp_resumes {W : Type} (t : transport W) (m : Machine W) (n : Nat)
    (hi : Inv m) (hin : m.main.isCleanWait = true ∨ m.main.isCleanCall = true)
    (hn : 2 * m.events.length + 2 ≤ n) :
    (exec t m (List.replicate n .tracker ++ [.main, .main])).main.isIdle = true ∧
    (exec t m (List.replicate n .tracker ++ [.main, .main])).closed = true ∧
    (exec t m (List.replicate n .tracker ++ [.main, .main])).tracker = .exited ∧
    (exec t m (List.replicate n .tracker ++ [.main, .main])).events = [] ∧
    cleanUps (exec t m (List.replicate n .tracker ++ [.main, .main])).st.trace = 1 ∧
    (exec t m (List.replicate n .tracker ++ [.main, .main])).st.world =
      t.cleanUp (exec t m (List.replicate n .tracker)).st.world := by
  obtain ⟨hc, h0⟩ := hi.waiting hin
  have hp : m.hasPanicked = false := by
    rcases hin with h | h
    · simp only [Machine.hasPanicked, mainPc_eq_cleanWait m.main h]
    · simp only [Machine.hasPanicked, mainPc_eq_cleanCall m.main h]
  obtain ⟨d1, d2, d3, d4, mid, d5, _, d7, _, _⟩ := drain t m n hi hc hp hn
  have hi3 := Inv_exec t (List.replicate n .tracker) m hi
  have hwg := hi3.wg_eq
  rw [if_pos d1] at hwg
  rw [exec_append]
  generalize exec t m (List.replicate n .tracker) = m3 at d1 d2 d3 d4 d5 hi3 hwg ⊢
  have h5 : step t { m3 with main := .cleanCall } .main =
      some { m3 with
        st := { world := t.cleanUp m3.st.world, trace := m3.st.trace ++ [.cleanUp] },
        main := .idle } := by
    simp only [step, mainStep]
  have htr : cleanUps (m3.st.trace ++ [.cleanUp]) = 1 := by
    simp only [d5, cleanUps_append, cleanUps, h0, d7]
  rcases hin with h | h
  · have hm := mainPc_eq_cleanWait m.main h
    have h4 : step t m3 .main = some { m3 with main := .cleanCall } := by
      simp only [step, mainStep, d4, hm, hwg]
      rfl
    simp only [exec, h4, h5, Option.getD_some]
    exact ⟨rfl, d3, d1, d2, htr, trivial⟩
  · have hm := mainPc_eq_cleanCall m.main h
    have h4 : step t m3 .main =
        some { m3 with
          st := { world := t.cleanUp m3.st.world, trace := m3.st.trace ++ [.cleanUp] },
          main := .idle } := by
      simp only [step, mainStep, d4, hm]
    have h6 : step t { m3 with
          st := { world := t.cleanUp m3.st.world, trace := m3.st.trace ++ [.cleanUp] },
          main := .idle } .main = none := by
      simp only [step, mainStep]
    simp only [exec, h4, h6, Option.getD_some, Option.getD_none]
    exact ⟨rfl, d3, d1, d2, htr, trivial⟩

/-- C9, amended: `CleanUp` is a one-shot shutdown.  Invoked outside any method
on a transport whose queue is already closed, it panics at `close(t.events)`
and never returns, whatever is scheduled afterwards; it reaches neither the
wait nor the callback, so the world, the trace, the queue, the tracker and its
map stay as the first invocation left them. -/
theorem CleanUp_again_panics {W : Type} (t : transport W) (m : Machine W)
    (sched : List (Choice W)) (hidle : m.main.isIdle = true)
    (hclosed : m.closed = true) :
    (exec t m (.call .CleanUp :: .main :: sched)).hasPanicked = true ∧
    (exec t m (.call .CleanUp :: .main :: sched)).main.isIdle = false ∧
    (exec t m (.call .CleanUp :: .main :: sched)).st = m.st ∧
    (exec t m (.call .CleanUp :: .main :: sched)).events = m.events ∧
    (exec t m (.call .CleanUp :: .main :: sched)).closed = true ∧
    (exec t m (.call .CleanUp :: .main :: sched)).tracker = m.tracker ∧
    (exec t m (.call .CleanUp :: .main :: sched)).devices = m.devices ∧
    (exec t m (.call .CleanUp :: .main :: sched)).wg = m.wg := by
  have hm := mainPc_eq_idle m.main hidle
  have h1 : step t m (.call .CleanUp) = some { m with main := .cleanClose } := by
    simp only [step, hm]
  have h2 : step t { m with main := .cleanClose } .main =
      some { m with main := .panicked "close of closed channel" } := by
    simp only [step, mainStep, hclosed]
    rfl
  simp only [exec, h1, h2, Option.getD_some]
  rw [exec_panicked t sched { m with main := .panicked "close of closed channel" } rfl]
  exact ⟨rfl, rfl, rfl, rfl, hclosed, rfl, rfl, rfl⟩

/-- C9 amended, on a transport already cleaned up once: the second `CleanUp`
panics and the trace still holds one close and one callback. -/
theorem CleanUp_again_panics_witness :
    (exec scriptedSender afterCleanUp [.call .CleanUp, .main]).hasPanicked = true ∧
    (exec scriptedSender afterCleanUp [.call .CleanUp, .main]).st.trace =
      [.chanClose, .cleanUp] :=
  have h := CleanUp_again_panics scriptedSender afterCleanUp [] rfl rfl
  ⟨h.1, by rw [h.2.2.1]; rfl⟩

/-- C10: in every execution from `NewTransport`, the callback `t.cleanUp` is
called at most once; `CleanUp` stands before it only with the queue closed
(one `close` in the trace, no callback yet), the queue empty, the tracker
returned and every inserted event received, and its next step applies
`t.cleanUp` to the world, marks it in the trace and returns; a mark enters the
trace by that step only, so each mark is one application of `t.cleanUp`.  Once
the callback has been called, the same holds of the queue and the tracker and,
whatever is scheduled afterwards, the tracker's map does not change and the
trace gains no notifier call and no receive.  And from any reached state
outside any method with the queue still open, `CleanUp` runs to its end once
the tracker has had its steps: the trace gains the close, then the tracker's
receipt of every queued event, then the callback, called once, and the world
is `t.cleanUp` of the world the tracker left; and from any reached state of a
`CleanUp` past its close, whatever was interleaved before, the tracker's steps
and two steps of `CleanUp` bring the callback, called once on the world the
tracker left, with the tracker returned and the queue empty. -/
theorem CleanUp_orderly {W : Type} (t : transport W) (w : W) (sched : List (Choice W))
    (m : Machine W) (hm : m = exec t (NewTransport w) sched) :
    cleanUps m.st.trace ≤ 1 ∧
    (m.main.isCleanCall = true →
      m.closed = true ∧ m.events = [] ∧ m.tracker = .exited ∧
      chanCloses m.st.trace = 1 ∧ cleanUps m.st.trace = 0 ∧
      chanSends m.st.trace = chanRecvs m.st.trace ∧
      (exec t m [.main]).st.world = t.cleanUp m.st.world ∧
      (exec t m [.main]).st.trace = m.st.trace ++ [.cleanUp] ∧
      (exec t m [.main]).main.isIdle = true) ∧
    (∀ c : Choice W,
      cleanUps (exec t m [c]).st.trace = cleanUps m.st.trace ∨
      (m.main.isCleanCall = true ∧
        (exec t m [c]).st.world = t.cleanUp m.st.world ∧
        (exec t m [c]).st.trace = m.st.trace ++ [.cleanUp] ∧
        cleanUps (exec t m [c]).st.trace = cleanUps m.st.trace + 1)) ∧
    (1 ≤ cleanUps m.st.trace →
      m.closed = true ∧ m.events = [] ∧ m.tracker = .exited ∧
      chanCloses m.st.trace = 1 ∧
      chanSends m.st.trace = chanRecvs m.st.trace ∧
      ∀ sched2 : List (Choice W),
        (exec t m sched2).devices = m.devices ∧
        notifies (exec t m sched2).st.trace = notifies m.st.trace ∧
        chanRecvs (exec t m sched2).st.trace = chanRecvs m.st.trace ∧
        cleanUps (exec t m sched2).st.trace = 1) ∧
    (m.main.isIdle = true → m.closed = false →
      ∀ n, 2 * m.events.length + 2 ≤ n →
        (exec t m ([.call .CleanUp, .main] ++ List.replicate n .tracker ++
          [.main, .main])).main.isIdle = true ∧
        (exec t m ([.call .CleanUp, .main] ++ List.replicate n .tracker ++
          [.main, .main])).closed = true ∧
        (exec t m ([.call .CleanUp, .main] ++ List.replicate n .tracker ++
          [.main, .main])).tracker = .exited ∧
        (exec t m ([.call .CleanUp, .main] ++ List.replicate n .tracker ++
          [.main, .main])).events = [] ∧
        cleanUps (exec t m ([.call .CleanUp, .main] ++ List.replicate n .tracker ++
          [.main, .main])).st.trace = 1 ∧
        (∃ mid, (exec t m ([.call .CleanUp, .main] ++ List.replicate n .tracker ++
            [.main, .main])).st.trace =
            m.st.trace ++ .chanClose :: (mid ++ [.cleanUp]) ∧
          chanSends mid = [] ∧ cleanUps mid = 0 ∧ chanCloses mid = 0 ∧
          chanRecvs mid = m.events) ∧
        (exec t m ([.call .CleanUp, .main] ++ List.replicate n .tracker ++
          [.main, .main])).st.world =
          t.cleanUp (exec t m
            ([.call .CleanUp, .main] ++ List.replicate n .tracker)).st.world) ∧
    ((m.main.isCleanWait = true ∨ m.main.isCleanCall = true) →
      ∀ n, 2 * m.events.length + 2 ≤ n →
        (exec t m (List.replicate n .tracker ++ [.main, .main])).main.isIdle = true ∧
        (exec t m (List.replicate n .tracker ++ [.main, .main])).closed = true ∧
        (exec t m (List.replicate n .tracker ++ [.main, .main])).tracker = .exited ∧
        (exec t m (List.replicate n .tracker ++ [.main, .main])).events = [] ∧
        cleanUps
          (exec t m (List.replicate n .tracker ++ [.main, .main])).st.trace = 1 ∧
        (exec t m (List.replicate n .tracker ++ [.main, .main])).st.world =
          t.cleanUp (exec t m (List.replicate n .tracker)).st.world) := by
  have hi : Inv m := by rw [hm]; exact Inv_exec t sched _ (Inv_NewTransport w)
  have drained : m.tracker = .exited →
      m.closed = true ∧ m.events = [] ∧ chanCloses m.st.trace = 1 ∧
      chanSends m.st.trace = chanRecvs m.st.trace := by
    intro hx
    obtain ⟨hc, he⟩ := hi.exited_drained hx
    have hcl := hi.closed_iff
    have hf := hi.fifo
    rw [hc] at hcl
    rw [he, List.append_nil] at hf
    exact ⟨hc, he, by simpa using hcl, hf⟩
  refine ⟨hi.cleanUp_once, ?_, exec_one_cleanUp t m, ?_, ?_, ?_⟩
  · intro hc
    have hwg := hi.calling hc
    have hx : m.tracker = .exited := by
      by_cases hx : m.tracker = .exited
      · exact hx
      · have h1 := hi.wg_eq
        rw [if_neg hx] at h1
        omega
    obtain ⟨a, b, c, d⟩ := drained hx
    obtain ⟨w1, w2, w3⟩ := exec_cleanCall t m hc
    exact ⟨a, b, hx, c, (hi.waiting (Or.inr hc)).2, d, w1, w2, w3⟩
  · intro h1
    have hx := hi.cleanUp_exited h1
    obtain ⟨a, b, c, d⟩ := drained hx
    refine ⟨a, b, hx, c, d, fun sched2 => ?_⟩
    obtain ⟨_, e2, e3, e4, e5⟩ := exec_after_exit t sched2 m hx
    have hi2 : Inv (exec t m sched2) := Inv_exec t sched2 m hi
    exact ⟨e2, e3, e4, by have := hi2.cleanUp_once; omega⟩
  · intro hidle hopen n hn
    exact CleanUp_completes t m n hi hidle hopen hn
  · intro hin n hn
    exact CleanUp_resumes t m n hi hin hn

/-- C10, on a transport whose `run` has queued E1 and E3 before the tracker
took any step: `CleanUp` returns, between its close and its callback the
tracker has received both events and notified both devices, and the callback
has been applied to the world the tracker left. -/
theorem CleanUp_orderly_witness :
    ((exec unsubscribing afterRun ([.call .CleanUp, .main] ++
        List.replicate 6 .tracker ++ [.main, .main])).main.isIdle = true ∧
      (exec unsubscribing afterRun ([.call .CleanUp, .main] ++
        List.replicate 6 .tracker ++ [.main, .main])).closed = true ∧
      (exec unsubscribing afterRun ([.call .CleanUp, .main] ++
        List.replicate 6 .tracker ++ [.main, .main])).tracker = .exited ∧
      (exec unsubscribing afterRun ([.call .CleanUp, .main] ++
        List.replicate 6 .tracker ++ [.main, .main])).events = [] ∧
      cleanUps (exec unsubscribing afterRun ([.call .CleanUp, .main] ++
        List.replicate 6 .tracker ++ [.main, .main])).st.trace = 1 ∧
      (∃ mid, (exec unsubscribing afterRun ([.call .CleanUp, .main] ++
        List.replicate 6 .tracker ++ [.main, .main])).st.trace =
          afterRun.st.trace ++ .chanClose :: (mid ++ [.cleanUp]) ∧
        chanSends mid = [] ∧ cleanUps mid = 0 ∧ chanCloses mid = 0 ∧
        chanRecvs mid = afterRun.events) ∧
      (exec unsubscribing afterRun ([.call .CleanUp, .main] ++
        List.replicate 6 .tracker ++ [.main, .main])).st.world =
        unsubscribing.cleanUp (exec unsubscribing afterRun
          ([.call .CleanUp, .main] ++ List.replicate 6 .tracker)).st.world) ∧
    afterRun.events = [E1, E3] ∧
    afterRun.st.world = [true, true, true] ∧
    (exec unsubscribing afterRun
      ([.call .CleanUp, .main] ++ List.replicate 6 .tracker)).st.world = [true] ∧
    (exec unsubscribing afterRun ([.call .CleanUp, .main] ++
        List.replicate 6 .tracker ++ [.main, .main])).st.world = [false, true] ∧
    (exec unsubscribing afterRun ([.call .CleanUp, .main] ++
        List.replicate 6 .tracker ++ [.main, .main])).st.trace =
      afterRun.st.trace ++
        [.chanClose,
         .chanRecv E1, .notify E1 true, .log .debug (detectedNewDeviceLogMessage "A"),
         .chanRecv E3, .notify E3 true, .log .debug (detectedNewDeviceLogMessage "B"),
         .cleanUp] :=
  ⟨(CleanUp_orderly unsubscribing [true, true, true] _ afterRun rfl).2.2.2.2.1 rfl rfl 6
      (by decide), rfl, rfl, rfl, rfl, rfl⟩

/-! ## The machine and the functions agree -/

/-- The steps of the calling goroutine through the retry loop end in the state
that `retryLoop` computes. -/
theorem machine_retryLoop {W : Type} (t : transport W) (ctx : EdgeXContext W) (e : Event)
    (bytes : Bytes) (ps : List Value) :
    ∀ (fuel : Nat) (m : Machine W) (s1 : St W),
      m.main = .handleSend ctx e bytes ps →
      retryLoop t ctx e bytes fuel m.st = some s1 →
      ∃ n, exec t m (List.replicate n .main) =
        { m with st := s1, main := .runRange ctx ps } := by
  intro fuel
  induction fuel with
  | zero => intro m s1 _ h; cases h
  | succ fuel ih =>
      intro m s1 hm h
      rcases hs : t.send bytes m.st.world with ⟨b, w1⟩
      cases b with
      | true =>
          have h1 : step t m .main = some { m with
              st := { world := w1, trace := m.st.trace ++
                [.send bytes true, .log .debug (sentLogMessage e.ID)] },
              main := .handleMark ctx e ps } := by
            simp only [step, mainStep, hm, hs]
          rcases hp : ctx.MarkAsPushed w1 with ⟨r, w2⟩
          cases r with
          | none =>
              simp only [retryLoop, hs, hp, Option.some.injEq] at h
              subst h
              have h2 : step t { m with
                  st := { world := w1, trace := m.st.trace ++
                    [.send bytes true, .log .debug (sentLogMessage e.ID)] },
                  main := .handleMark ctx e ps } .main = some { m with
                  st := { world := w2, trace := m.st.trace ++
                    [.send bytes true, .log .debug (sentLogMessage e.ID),
                     .markAsPushed true] },
                  main := .runRange ctx ps } := by
                simp only [step, mainStep, hp, List.append_assoc, List.cons_append,
                  List.nil_append]
              exact ⟨2, by simp only [List.replicate, exec, h1, h2, Option.getD_some]⟩
          | some err =>
              simp only [retryLoop, hs, hp, Option.some.injEq] at h
              subst h
              have h2 : step t { m with
                  st := { world := w1, trace := m.st.trace ++
                    [.send bytes true, .log .debug (sentLogMessage e.ID)] },
                  main := .handleMark ctx e ps } .main = some { m with
                  st := { world := w2, trace := m.st.trace ++
                    [.send bytes true, .log .debug (sentLogMessage e.ID),
                     .markAsPushed false, .log .error err] },
                  main := .runRange ctx ps } := by
                simp only [step, mainStep, hp, List.append_assoc, List.cons_append,
                  List.nil_append]
              exact ⟨2, by simp only [List.replicate, exec, h1, h2, Option.getD_some]⟩
      | false =>
          have h1 : step t m .main = some { m with
              st := { world := w1, trace := m.st.trace ++ [.send bytes false] },
              main := .handleSleep ctx e bytes ps } := by
            simp only [step, mainStep, hm, hs]
          simp only [retryLoop, hs] at h
          obtain ⟨n, hn⟩ := ih
            { m with
              st := { world := w1, trace := m.st.trace ++
                [.send bytes false, .sleep t.sendFailureWaitInNanoseconds] },
              main := .handleSend ctx e bytes ps } s1 rfl h
          have h2 : step t { m with
              st := { world := w1, trace := m.st.trace ++ [.send bytes false] },
              main := .handleSleep ctx e bytes ps } .main = some { m with
              st := { world := w1, trace := m.st.trace ++
                [.send bytes false, .sleep t.sendFailureWaitInNanoseconds] },
              main := .handleSend ctx e bytes ps } := by
            simp only [step, mainStep, St.emit, List.append_assoc, List.cons_append,
              List.nil_append]
          refine ⟨n + 2, ?_⟩
          simp only [List.replicate_succ, exec, h1, h2, Option.getD_some]
          exact hn

/-- The steps of the calling goroutine through `handleEvent` end in the state
that the function `handleEvent` computes, with everything else untouched. -/
theorem machine_handleEvent {W : Type} (t : transport W) (ctx : EdgeXContext W)
    (e : Event) (ps : List Value) (fuel : Nat) (m : Machine W) (s1 : St W)
    (hm : m.main = .handleMarshal ctx e ps)
    (h : handleEvent t ctx e fuel m.st = some s1) :
    ∃ n, exec t m (List.replicate n .main) =
      { m with st := s1, main := .runRange ctx ps } := by
  rcases hmar : t.marshal (.eventPtr e) m.st.world with ⟨r, w1⟩
  cases r with
  | error err =>
      simp only [handleEvent, hmar, Option.some.injEq] at h
      subst h
      have h1 : step t m .main = some { m with
          st := { world := w1, trace := m.st.trace ++
            [.marshal (.eventPtr e) false,
             .log .warn (marshalFailedLogMessage e.ID err)] },
          main := .runRange ctx ps } := by
        simp only [step, mainStep, hm, hmar]
      exact ⟨1, by simp only [List.replicate, exec, h1, Option.getD_some]⟩
  | ok bytes =>
      rw [handleEvent_ok t ctx e m.st bytes w1 fuel hmar] at h
      have h1 : step t m .main = some { m with
          st := { world := w1, trace := m.st.trace ++ [.marshal (.eventPtr e) true] },
          main := .handleSend ctx e bytes ps } := by
        simp only [step, mainStep, hm, hmar]
      obtain ⟨n, hn⟩ := machine_retryLoop t ctx e bytes ps fuel
        { m with
          st := { world := w1, trace := m.st.trace ++ [.marshal (.eventPtr e) true] },
          main := .handleSend ctx e bytes ps } s1 rfl h
      refine ⟨n + 1, ?_⟩
      simp only [List.replicate_succ, exec, h1, Option.getD_some]
      rw [hn]

/-- With the channel closed, the steps of the tracker through the queued events
end in the map and the state that `rangeLoop` computes on them. -/
theorem machine_rangeLoop {W : Type} (t : transport W) :
    ∀ (evs : List Event) (m : Machine W) (n : Nat), m.events = evs →
      m.tracker = .ranging → m.closed = true → m.hasPanicked = false →
      2 * evs.length + 1 ≤ n →
      (exec t m (List.replicate n .tracker)).devices =
        (rangeLoop t evs (m.devices, m.st)).1 ∧
      (exec t m (List.replicate n .tracker)).st =
        (rangeLoop t evs (m.devices, m.st)).2 := by
  intro evs
  induction evs with
  | nil =>
      intro m n he ht hc hp hn
      obtain ⟨k, rfl⟩ : ∃ k, n = k + 1 := ⟨n - 1, by omega⟩
      simp only [List.replicate_succ, exec, step_tracker_exit t m hp ht he hc,
        Option.getD_some]
      rw [exec_tracker_exited t k _ rfl]
      exact ⟨rfl, rfl⟩
  | cons e rest ih =>
      intro m n he ht hc hp hn
      obtain ⟨k, rfl⟩ : ∃ k, n = k + 2 := ⟨n - 2, by simp at hn; omega⟩
      simp only [List.replicate_succ, exec, step_tracker_recv t m e rest hp ht he,
        Option.getD_some]
      have hb := step_tracker_body t
        { m with events := rest, tracker := .holding e,
                 st := m.st.emit [.chanRecv e] } e hp rfl
      rw [hb]
      simp only [Option.getD_some]
      exact ih
        { m with events := rest, tracker := .ranging,
                 devices := (loopBody t e m.devices (m.st.emit [.chanRecv e])).1,
                 st := (loopBody t e m.devices (m.st.emit [.chanRecv e])).2 }
        k rfl rfl hc hp (by simp at hn; omega)

end cloudmqtt
